import Mathlib

/-
Shallow embedding of the galaxy generator in `game-engine/src/galaxy.cpp`
(C++ namespace `space4x`) of the spacegame repository, used to check the
natural-language specification against the code.

Modelling conventions, used throughout this file:

* Coordinates are rationals; the C++ `double` arithmetic on coordinates
  (sums, differences, products, means) is modelled exactly over `ℚ`.
* `calculateDistance` returns `sqrt(dx*dx + dy*dy)`, a transcendental value,
  so the model works with the squared distance `dist2` instead.  Every use of
  a distance in `galaxy.cpp` is a comparison - against a constant threshold,
  against another distance, or inside a sort key - and each comparison
  transfers exactly to squared form: for `q = dist2 ≥ 0` we have
  `sqrt q ≤ c ↔ (0 ≤ c ∧ q ≤ c*c)` (helper `distLe`),
  `sqrt q < c ↔ (0 < c ∧ q < c*c)` (helper `distLt`), and
  `sqrt q₁ < sqrt q₂ ↔ q₁ < q₂`.  The `distance` value a call site hands to
  `createWarpLane` is correspondingly the squared distance, and a
  `WarpLane.distance` field stores that squared value.  A value *derived*
  from a stored distance - `travelTime = ceil(distance / 5)` - is modelled
  on the stored squared value: the relation between the stored fields is
  the source's relation, while the number itself scales with the stored
  distance exactly as that distance already does.
* The seeded Mersenne-twister source (`SeededRandom`, a deterministic stream)
  is abstracted into oracle streams inside `Rng`: a stream of candidate
  positions (each `generateRandomPositionInCircle` call, and each polar
  position synthesized for a fixed system without exact coordinates, consumes
  one), a stream of booleans (each probabilistic lane-acceptance test
  `random.next() < finalProbability` in `generateWarpLanes` consumes one), and
  a stream of integers (each `intRange` draw for `targetConnections` consumes
  one).  Theorems quantify over all streams, which covers every realizable
  behaviour of the seeded source.  Draws that feed purely cosmetic fields
  (resources, GDP, population, star types, planet/moon/asteroid counts,
  generated display names, anomaly categories and effect payloads) are
  omitted, as is the `systemConfigManager` detail lookup: no frozen claim
  references them and they do not influence geometry or the lane graph.
* `struct StarSystem` is modelled with the fields the claims and the graph
  algorithms read (id, position, type, isFixed, connections, explored); the
  C++ `WarpLane::from`/`WarpLane::to` fields are named `fromId`/`toId` here
  because `from` is a Lean keyword.
* `createWarpLane` in C++ also appends to the two systems' own
  `connections` vectors; `generateGalaxy` (galaxy.cpp:66-68) overwrites every
  system's `connections` from the side map `connections` before returning,
  and no stage reads the per-system vectors in between, so the model keeps
  `StarSystem` values immutable during lane building and applies the final
  overwrite, exactly as the returned galaxy has it.
-/

namespace Space4x

/- ---------------------------------------------------------------- -/
/- Geometry helpers                                                  -/
/- ---------------------------------------------------------------- -/

abbrev Point : Type := ℚ × ℚ

/- Squared Euclidean distance; `calculateDistance` (galaxy.cpp:401-406) is
its square root. -/
def dist2 (a b : Point) : ℚ :=
  (a.1 - b.1) * (a.1 - b.1) + (a.2 - b.2) * (a.2 - b.2)

/- `sqrt q ≤ c`, expressed on the squared distance `q`. -/
def distLe (q c : ℚ) : Bool :=
  decide (0 ≤ c) && decide (q ≤ c * c)

/- `sqrt q < c`, expressed on the squared distance `q`. -/
def distLt (q c : ℚ) : Bool :=
  decide (0 < c) && decide (q < c * c)

/- ---------------------------------------------------------------- -/
/- Data model (galaxy.h, fields as used by galaxy.cpp)               -/
/- ---------------------------------------------------------------- -/

structure FixedSystem where
  id : String
  type : String
  hasFixedPosition : Bool
  x : ℚ
  y : ℚ
  targetDistance : ℚ
  distanceTolerance : ℚ
deriving DecidableEq

structure ConnectivityConfig where
  minConnections : Int
  maxConnections : Int
  maxDistance : ℚ
  distanceDecayFactor : ℚ
  useVoronoiConnectivity : Bool
deriving DecidableEq

structure GalaxyConfig where
  radius : ℚ
  starSystemCount : Int
  anomalyCount : Int
  fixedSystems : List FixedSystem
  connectivity : ConnectivityConfig
deriving DecidableEq

structure StarSystem where
  id : String
  x : ℚ
  y : ℚ
  type : String
  isFixed : Bool
  connections : List String
  explored : Bool
deriving DecidableEq

def StarSystem.pos (s : StarSystem) : Point := (s.x, s.y)

structure WarpLane where
  id : String
  fromId : String
  toId : String
  distance : ℚ
  travelTime : Int
  discovered : Bool
deriving DecidableEq

structure VoronoiSite where
  x : ℚ
  y : ℚ
  neighbors : List Nat
  systemId : String
  hasSystem : Bool
deriving DecidableEq

def VoronoiSite.pos (s : VoronoiSite) : Point := (s.x, s.y)

/- An anomaly, reduced to its position: no frozen claim reads the cosmetic
id/name/type/effect fields. -/
abbrev Anomaly : Type := Point

structure GalaxyBounds where
  minX : ℚ
  maxX : ℚ
  minY : ℚ
  maxY : ℚ
  radius : ℚ
deriving DecidableEq

structure Galaxy where
  config : GalaxyConfig
  systems : List StarSystem
  anomalies : List Anomaly
  warpLanes : List WarpLane
  bounds : GalaxyBounds
deriving DecidableEq

/- ---------------------------------------------------------------- -/
/- Abstracted random source                                          -/
/- ---------------------------------------------------------------- -/

structure Rng where
  posStream : Nat → Point
  decStream : Nat → Bool
  intStream : Nat → Int
  posIdx : Nat
  decIdx : Nat
  intIdx : Nat

/- One `generateRandomPositionInCircle()` call (galaxy.cpp:373-377), or one
polar position synthesized for a distance-constrained fixed system. -/
def Rng.drawPos (r : Rng) : Point × Rng :=
  (r.posStream r.posIdx,
   ⟨r.posStream, r.decStream, r.intStream, r.posIdx + 1, r.decIdx, r.intIdx⟩)

/- One probabilistic acceptance test `random.next() < finalProbability`. -/
def Rng.drawDec (r : Rng) : Bool × Rng :=
  (r.decStream r.decIdx,
   ⟨r.posStream, r.decStream, r.intStream, r.posIdx, r.decIdx + 1, r.intIdx⟩)

/- One `random.intRange` draw. -/
def Rng.drawInt (r : Rng) : Int × Rng :=
  (r.intStream r.intIdx,
   ⟨r.posStream, r.decStream, r.intStream, r.posIdx, r.decIdx, r.intIdx + 1⟩)

/- ---------------------------------------------------------------- -/
/- createWarpLane (galaxy.cpp:408-432) and the side connection map   -/
/- ---------------------------------------------------------------- -/

/- The `std::unordered_map<std::string, std::vector<std::string>>` side map:
`operator[]` on a missing key default-constructs an empty vector, so the map
is a total function defaulting to `[]`. -/
abbrev ConnMap : Type := String → List String

def connPush (conn : ConnMap) (key v : String) : ConnMap :=
  fun k => if k = key then conn k ++ [v] else conn k

/- Lane list plus the side connection map, the pieces of state every
lane-building stage threads. -/
structure GraphState where
  warpLanes : List WarpLane
  connections : ConnMap

def createWarpLane (system1 system2 : StarSystem) (distance : ℚ)
    (st : GraphState) : GraphState :=
  if system2.id ∈ st.connections system1.id then st
  else
    ⟨st.warpLanes ++
       [⟨system1.id ++ "-" ++ system2.id, system1.id, system2.id, distance,
         ⌈distance / 5⌉, system1.explored && system2.explored⟩],
     connPush (connPush st.connections system1.id system2.id)
       system2.id system1.id⟩

/- The lane `createWarpLane` appends when the pair is not yet connected. -/
def madeLane (system1 system2 : StarSystem) (distance : ℚ) : WarpLane :=
  ⟨system1.id ++ "-" ++ system2.id, system1.id, system2.id, distance,
    ⌈distance / 5⌉, system1.explored && system2.explored⟩

theorem createWarpLane_eq (system1 system2 : StarSystem) (distance : ℚ)
    (st : GraphState) :
    createWarpLane system1 system2 distance st =
      if system2.id ∈ st.connections system1.id then st
      else
        ⟨st.warpLanes ++ [madeLane system1 system2 distance],
         connPush (connPush st.connections system1.id system2.id)
           system2.id system1.id⟩ := rfl

/- ---------------------------------------------------------------- -/
/- System classification helpers                                     -/
/- ---------------------------------------------------------------- -/

/- galaxy.cpp:579-585: systems within 300 LY of the origin are "core". -/
def determineSystemType (position : Point) : String :=
  if distLe (dist2 position (0, 0)) 300 then "core" else "rim"

/- galaxy.cpp:1041-1049. -/
def getDistanceMultiplier (systemType : String) : ℚ :=
  if systemType = "origin" then 5/2
  else if systemType = "core" then 2
  else 2/5

/- galaxy.cpp:1034-1058. -/
def calculateTieredDistance (system1 system2 : StarSystem)
    (baseDistance : ℚ) : ℚ :=
  baseDistance * max (getDistanceMultiplier system1.type)
    (getDistanceMultiplier system2.type)

/- ---------------------------------------------------------------- -/
/- Union-find (galaxy.cpp:476-508)                                   -/
/- ---------------------------------------------------------------- -/

structure UnionFind where
  parent : List Nat
  rank : List Nat

/- One step along the parent array (out-of-range indices read as roots). -/
def ufStep (parent : List Nat) (x : Nat) : Nat := parent.getD x x

def findAux (parent : List Nat) : Nat → Nat → Nat
  | 0, x => x
  | fuel + 1, x =>
    if ufStep parent x = x then x else findAux parent fuel (ufStep parent x)

/- The C++ `find` closure (galaxy.cpp:486-491) performs path compression;
compression rewrites the parent array but never changes which root any
element reaches, nor any rank, so the model computes the root by plain
parent-chasing.  Fuel `parent.length` suffices: ranks strictly increase
along any parent chain (the union-by-rank invariant), so a chain visits
pairwise distinct indices. -/
def ufFind (uf : UnionFind) (x : Nat) : Nat :=
  findAux uf.parent uf.parent.length x

/- galaxy.cpp:494-508. -/
def ufUnite (uf : UnionFind) (x y : Nat) : UnionFind × Bool :=
  let px := ufFind uf x
  let py := ufFind uf y
  if px = py then (uf, false)
  else
    let rx := uf.rank.getD px 0
    let ry := uf.rank.getD py 0
    if rx < ry then (⟨uf.parent.set px py, uf.rank⟩, true)
    else if ry < rx then (⟨uf.parent.set py px, uf.rank⟩, true)
    else (⟨uf.parent.set py px, uf.rank.set px (rx + 1)⟩, true)

/- ---------------------------------------------------------------- -/
/- Shared placement helpers                                          -/
/- ---------------------------------------------------------------- -/

def dummySystem : StarSystem := ⟨"", 0, 0, "", false, [], false⟩

def dummySite : VoronoiSite := ⟨0, 0, [], "", false⟩

/- galaxy.cpp:379-388 (`calculateDistance(...) < minDistance`). -/
def isPositionTooCloseToSystems (pos : Point) (systems : List StarSystem)
    (minDistance : ℚ) : Bool :=
  systems.any (fun system => distLt (dist2 pos system.pos) minDistance)

/- galaxy.cpp:390-399, positions of already-placed anomalies. -/
def isPositionTooCloseAnomalies (pos : Point) (anomalies : List Anomaly)
    (minDistance : ℚ) : Bool :=
  anomalies.any (fun a => distLt (dist2 pos a) minDistance)

/- The `do { position = ...; attempts++; } while (attempts < cap && !valid)`
loops of galaxy.cpp:197-201 and 249-254 with cap 100: the first valid sample
among draws 1..99 is returned, otherwise draw 100 is returned - accepted
even when invalid.  Called with fuel 99. -/
def rejectionSample (valid : Point → Bool) : Nat → Rng → Point × Rng
  | 0, rng => rng.drawPos
  | fuel + 1, rng =>
    let (p, rng') := rng.drawPos
    if valid p then (p, rng') else rejectionSample valid fuel rng'

/- ---------------------------------------------------------------- -/
/- generateStarSystems (traditional path, galaxy.cpp:106-239)        -/
/- ---------------------------------------------------------------- -/

/- One fixed system (galaxy.cpp:110-187).  A spec without exact coordinates
draws one abstract position (the source draws a distance in
`[target-tolerance, target+tolerance]` and an angle and takes cos/sin). -/
def placeFixedSystem (f : FixedSystem) (rng : Rng) : StarSystem × Rng :=
  if f.hasFixedPosition then
    (⟨f.id, f.x, f.y, f.type, true, [], f.type == "origin"⟩, rng)
  else
    let (p, rng') := rng.drawPos
    (⟨f.id, p.1, p.2, f.type, true, [], f.type == "origin"⟩, rng')

/- One iteration of the fixed-system loop of galaxy.cpp:110-187. -/
def placeFixedStep (acc : List StarSystem × Rng) (f : FixedSystem) :
    List StarSystem × Rng :=
  let sr := placeFixedSystem f acc.2
  (acc.1 ++ [sr.1], sr.2)

/- One iteration of the generated-system loop of galaxy.cpp:192-236.  The
boolean records whether the accepted sample was valid. -/
def generatedStep (acc : (List StarSystem × Bool) × Rng) (i : Nat) :
    (List StarSystem × Bool) × Rng :=
  let pr := rejectionSample
    (fun p => !isPositionTooCloseToSystems p acc.1.1 2) 99 acc.2
  let ok := !isPositionTooCloseToSystems pr.1 acc.1.1 2
  ((acc.1.1 ++
      [⟨"system-" ++ toString (i + 1), pr.1.1, pr.1.2,
        determineSystemType pr.1, false, [], false⟩],
    acc.1.2 && ok), pr.2)

/- galaxy.cpp:106-239.  Returns the systems plus an instrumentation flag:
`true` iff every generated system's accepted position was valid (not too
close) at the moment it was accepted, i.e. no placement loop exhausted its
cap onto an invalid sample.  `generateStarSystems` below projects the flag
away, matching the C++ return value. -/
def generateStarSystemsCore (cfg : GalaxyConfig) (rng : Rng) :
    (List StarSystem × Bool) × Rng :=
  let fixedPart := cfg.fixedSystems.foldl placeFixedStep ([], rng)
  let remainingSystems : Int := cfg.starSystemCount - cfg.fixedSystems.length
  (List.range remainingSystems.toNat).foldl generatedStep
    ((fixedPart.1, true), fixedPart.2)

def generateStarSystems (cfg : GalaxyConfig) (rng : Rng) :
    List StarSystem × Rng :=
  ((generateStarSystemsCore cfg rng).1.1, (generateStarSystemsCore cfg rng).2)

/- ---------------------------------------------------------------- -/
/- generateAnomalies (galaxy.cpp:241-283), positions only            -/
/- ---------------------------------------------------------------- -/

def generateAnomalies (cfg : GalaxyConfig) (systems : List StarSystem)
    (rng : Rng) : List Anomaly × Rng :=
  (List.range cfg.anomalyCount.toNat).foldl
    (fun (acc : List Anomaly × Rng) _ =>
      let (position, rng') :=
        rejectionSample
          (fun p => !(isPositionTooCloseToSystems p systems 3 ||
                      isPositionTooCloseAnomalies p acc.1 2)) 99 acc.2
      (acc.1 ++ [position], rng')) ([], rng)

/- ---------------------------------------------------------------- -/
/- ensureMinimumConnectivity (galaxy.cpp:434-461)                    -/
/- ---------------------------------------------------------------- -/

/- One comparison of the nearest-system scan (galaxy.cpp:444-452). -/
def nearestStep (system : StarSystem) (acc : Option (StarSystem × ℚ))
    (other : StarSystem) : Option (StarSystem × ℚ) :=
  if other.id ≠ system.id then
    match acc with
    | none => some (other, dist2 system.pos other.pos)
    | some (_, bd) =>
      if dist2 system.pos other.pos < bd then
        some (other, dist2 system.pos other.pos)
      else acc
  else acc

/- Nearest other system by strict improvement over a `DBL_MAX` start: the
first system strictly closer than everything seen so far wins, so ties keep
the earlier system, exactly as `distance < minDistance` does. -/
def nearestOther (systems : List StarSystem) (system : StarSystem) :
    Option (StarSystem × ℚ) :=
  systems.foldl (nearestStep system) none

/- One iteration of galaxy.cpp:438-459. -/
def ensureMinStep (cfg : GalaxyConfig) (systems : List StarSystem)
    (st : GraphState) (system : StarSystem) : GraphState :=
  if st.connections system.id = [] then
    match nearestOther systems system with
    | some (nearest, minDistance) =>
      if distLe minDistance (cfg.radius * (3/10)) then
        createWarpLane system nearest minDistance st
      else st
    | none => st
  else st

def ensureMinimumConnectivity (cfg : GalaxyConfig)
    (systems : List StarSystem) (st : GraphState) : GraphState :=
  systems.foldl (ensureMinStep cfg systems) st

/- ---------------------------------------------------------------- -/
/- ensureNetworkConnectivity (galaxy.cpp:463-554)                    -/
/- ---------------------------------------------------------------- -/

/- The `systemToIndex` unordered_map is filled by ascending index with
overwrite, so a duplicated id maps to its last index. -/
def lastIdxOf (systems : List StarSystem) (id : String) : Option Nat :=
  (List.range systems.length).foldl
    (fun acc i => if (systems.getD i dummySystem).id = id then some i else acc)
    none

/- All index pairs `i < j < n`, in the enumeration order of the nested
loops of galaxy.cpp:524-532. -/
def pairsUnder (n : Nat) : List (Nat × Nat) :=
  (List.range n).flatMap
    (fun i => ((List.range n).filter (fun j => decide (i < j))).map
      (fun j => (i, j)))

/- Lexicographic order on `(distance, (i, j))`: `std::sort` on
`pair<double, pair<size_t, size_t>>` with its default comparison. -/
def bridgeLE (a b : ℚ × Nat × Nat) : Bool :=
  decide (a.1 < b.1) ||
    (decide (a.1 = b.1) &&
      (decide (a.2.1 < b.2.1) ||
        (decide (a.2.1 = b.2.1) && decide (a.2.2 ≤ b.2.2))))

/- Marking one existing lane in the union-find (galaxy.cpp:511-518);
lanes whose endpoint ids are unknown are skipped. -/
def uniteLane (systems : List StarSystem) (uf : UnionFind)
    (lane : WarpLane) : UnionFind :=
  match lastIdxOf systems lane.fromId, lastIdxOf systems lane.toId with
  | some i, some j => (ufUnite uf i j).1
  | _, _ => uf

/- The union-find after uniting every existing lane's endpoints, starting
from the freshly initialized arrays. -/
def existingUF (systems : List StarSystem) (st : GraphState) : UnionFind :=
  st.warpLanes.foldl (uniteLane systems)
    ⟨List.range systems.length, List.replicate systems.length 0⟩

/- Candidate bridge edges between systems in distinct components
(galaxy.cpp:521-532), as `(squared distance, (i, j))` triples. -/
def bridgeCandidates (systems : List StarSystem) (uf1 : UnionFind) :
    List (ℚ × Nat × Nat) :=
  (pairsUnder systems.length).filterMap
    (fun p =>
      if ufFind uf1 p.1 ≠ ufFind uf1 p.2 then
        some (dist2 (systems.getD p.1 dummySystem).pos
                (systems.getD p.2 dummySystem).pos, p.1, p.2)
      else none)

/- One iteration of the greedy bridge loop (galaxy.cpp:537-549). -/
def bridgeStep (systems : List StarSystem) (acc : UnionFind × GraphState)
    (e : ℚ × Nat × Nat) : UnionFind × GraphState :=
  let u := ufUnite acc.1 e.2.1 e.2.2
  if u.2 then
    (u.1, createWarpLane (systems.getD e.2.1 dummySystem)
      (systems.getD e.2.2 dummySystem) e.1 acc.2)
  else (u.1, acc.2)

def ensureNetworkConnectivity (systems : List StarSystem)
    (st : GraphState) : GraphState :=
  if systems.length < 2 then st
  else
    (((bridgeCandidates systems (existingUF systems st)).mergeSort
        bridgeLE).foldl (bridgeStep systems)
      (existingUF systems st, st)).2

/- ---------------------------------------------------------------- -/
/- generateWarpLanes (traditional path, galaxy.cpp:285-371)          -/
/- ---------------------------------------------------------------- -/

/- `a.second < b.second` under `std::sort` leaves the relative order of
equal-distance candidates unspecified; the model uses the stable merge sort
with `≤`, one valid refinement (no claim depends on that tie order). -/
def candLE (a b : StarSystem × ℚ) : Bool := decide (a.2 ≤ b.2)

/- `normalizedDistanceFromOrigin < 0.3` on doubles:
for radius > 0 this is `dist < 0.3 * radius`; for radius < 0 the quotient is
non-positive, hence < 0.3; for radius = 0 it is `inf/nan < 0.3`, false. -/
def isCentral (cfg : GalaxyConfig) (pos : Point) : Bool :=
  if 0 < cfg.radius then distLt (dist2 pos (0, 0)) (cfg.radius * (3/10))
  else decide (cfg.radius < 0)

/- Phase 1 body for one system.  The `break` on reaching
`targetConnections` is modelled as a skip: `connections[system.id]` only
grows during this fold, so the break condition is monotone and skipping the
remaining candidates is equivalent; draws are only consumed before the
break point, as in the source.  `targetConnections =
intRange(minConnections, maxConnections (+2 for central systems))` is
abstracted into an arbitrary oracle integer, a superset of the realizable
values, which is sound for theorems quantifying over all streams. -/
/- The distance-filtered candidate list of galaxy.cpp:299-307. -/
def phase1Candidates (cfg : GalaxyConfig) (systems : List StarSystem)
    (system : StarSystem) : List (StarSystem × ℚ) :=
  systems.filterMap
    (fun other =>
      if other.id ≠ system.id then
        if distLe (dist2 system.pos other.pos)
            cfg.connectivity.maxDistance then
          some (other, dist2 system.pos other.pos)
        else none
      else none)

/- One guaranteed-connection iteration (galaxy.cpp:327-334). -/
def phase1aStep (system : StarSystem) (st : GraphState)
    (cand : StarSystem × ℚ) : GraphState :=
  if cand.1.id ∈ st.connections system.id then st
  else createWarpLane system cand.1 cand.2 st

/- One probabilistic iteration (galaxy.cpp:337-361). -/
def phase1bStep (system : StarSystem) (targetConnections : Int)
    (acc : GraphState × Rng) (cand : StarSystem × ℚ) : GraphState × Rng :=
  if ((acc.1.connections system.id).length : Int) ≥ targetConnections
  then acc
  else if cand.1.id ∈ acc.1.connections system.id then acc
  else
    let b := acc.2.drawDec
    if b.1 then (createWarpLane system cand.1 cand.2 acc.1, b.2)
    else (acc.1, b.2)

def phase1System (cfg : GalaxyConfig) (systems : List StarSystem)
    (acc : GraphState × Rng) (system : StarSystem) : GraphState × Rng :=
  let sortedC := (phase1Candidates cfg systems system).mergeSort candLE
  let _maxConnections := cfg.connectivity.maxConnections +
    (if isCentral cfg system.pos then 2 else 0)
  let ti := acc.2.drawInt
  let guaranteed := min 2 sortedC.length
  let stA := (sortedC.take guaranteed).foldl (phase1aStep system) acc.1
  sortedC.foldl (phase1bStep system ti.1) (stA, ti.2)

def generateWarpLanes (cfg : GalaxyConfig) (systems : List StarSystem)
    (rng : Rng) : GraphState × Rng :=
  let st0 : GraphState := ⟨[], fun _ => []⟩
  let phase1 := systems.foldl (phase1System cfg systems) (st0, rng)
  let phase2 := ensureMinimumConnectivity cfg systems phase1.1
  (ensureNetworkConnectivity systems phase2, phase1.2)

/- ---------------------------------------------------------------- -/
/- Voronoi path (galaxy.cpp:604-923)                                 -/
/- ---------------------------------------------------------------- -/

/- galaxy.cpp:640-647.  NOTE: this iterates the *member* vector
`voronoiSites`, not the local list under construction in
`generateVoronoiSites`; the member is whatever it held before the call
(empty in a `generateGalaxy` run, which assigns it only after
`generateVoronoiSites` returns). -/
def isValidVoronoiPosition (memberSites : List VoronoiSite) (pos : Point)
    (minDistance : ℚ) : Bool :=
  memberSites.all (fun site => !distLt (dist2 pos site.pos) minDistance)

/- The `do { pos = ...; attempts++; } while (!valid && attempts < 500)`
loop of galaxy.cpp:621-624 together with the `if (attempts < 500)` accept
guard: the first valid sample among draws 1..499 is accepted; otherwise
draw 500 happens and the slot is dropped (`none`) - even if that last draw
is valid, since `attempts < 500` fails.  Called with fuel 499. -/
def voronoiSample (memberSites : List VoronoiSite) (minDistance : ℚ) :
    Nat → Rng → Option Point × Rng
  | 0, rng =>
    let (_, rng') := rng.drawPos
    (none, rng')
  | fuel + 1, rng =>
    let (p, rng') := rng.drawPos
    if isValidVoronoiPosition memberSites p minDistance then (some p, rng')
    else voronoiSample memberSites minDistance fuel rng'

/- One slot of galaxy.cpp:617-634. -/
def voronoiSiteStep (memberSites : List VoronoiSite)
    (acc : List VoronoiSite × Rng) : List VoronoiSite × Rng :=
  let s := voronoiSample memberSites (5/2) 499 acc.2
  match s.1 with
  | some p => (acc.1 ++ [⟨p.1, p.2, [], "", false⟩], s.2)
  | none => (acc.1, s.2)

/- galaxy.cpp:608-638 (`minDistance = 2.5`). -/
def generateVoronoiSites (memberSites : List VoronoiSite) (numSites : Int)
    (rng : Rng) : List VoronoiSite × Rng :=
  (List.range numSites.toNat).foldl
    (fun acc _ => voronoiSiteStep memberSites acc) ([], rng)

/- Lexicographic order on `(distance, index)`: `std::sort` on
`pair<double, size_t>` with its default comparison. -/
def distIdxLE (a b : ℚ × Nat) : Bool :=
  decide (a.1 < b.1) || (decide (a.1 = b.1) && decide (a.2 ≤ b.2))

def siteWithNeighbors (site : VoronoiSite) (neighbors : List Nat) :
    VoronoiSite :=
  ⟨site.x, site.y, neighbors, site.systemId, site.hasSystem⟩

/- The k-nearest scan for one site (galaxy.cpp:658-690). -/
def neighborScanStep (cfg : GalaxyConfig) (n : Nat)
    (sites : List VoronoiSite) (i : Nat) : List VoronoiSite :=
  let si := sites.getD i dummySite
  let distances := ((List.range n).filter (fun j => decide (j ≠ i))).map
    (fun j => (dist2 si.pos (sites.getD j dummySite).pos, j))
  let sorted := distances.mergeSort distIdxLE
  let maxConnections := min 6 sorted.length
  let kept := (sorted.take maxConnections).filter
    (fun e => distLe e.1 (cfg.radius * 2))
  sites.set i (siteWithNeighbors si (kept.map (fun e => e.2)))

/- One neighbor of the symmetrization pass (galaxy.cpp:693-700). -/
def symInnerStep (i : Nat) (sites : List VoronoiSite)
    (neighborIdx : Nat) : List VoronoiSite :=
  let nb := sites.getD neighborIdx dummySite
  if i ∈ nb.neighbors then sites
  else sites.set neighborIdx (siteWithNeighbors nb (nb.neighbors ++ [i]))

/- One site of the symmetrization pass (galaxy.cpp:693-700). -/
def symOuterStep (sites : List VoronoiSite) (i : Nat) :
    List VoronoiSite :=
  ((sites.getD i dummySite).neighbors).foldl (symInnerStep i) sites

/- galaxy.cpp:649-703. -/
def computeVoronoiNeighbors (cfg : GalaxyConfig)
    (sitesIn : List VoronoiSite) : List VoronoiSite :=
  let sites0 := sitesIn.map (fun s => siteWithNeighbors s [])
  let n := sites0.length
  let sites1 := (List.range n).foldl (neighborScanStep cfg n) sites0
  (List.range n).foldl symOuterStep sites1

/- galaxy.cpp:737-750: nearest site with `hasSystem` false; if every site
is claimed the search never updates and `closestSite` stays 0. -/
def closestUnclaimedSite (sites : List VoronoiSite) (pos : Point) : Nat :=
  ((List.range sites.length).foldl
    (fun (acc : Nat × Option ℚ) i =>
      let site := sites.getD i dummySite
      if site.hasSystem then acc
      else
        let d := dist2 pos site.pos
        match acc.2 with
        | none => (i, some d)
        | some bd => if d < bd then (i, some d) else acc) (0, none)).1

def claimSite (sites : List VoronoiSite) (i : Nat) (id : String) :
    List VoronoiSite :=
  let site := sites.getD i dummySite
  sites.set i ⟨site.x, site.y, site.neighbors, id, true⟩

/- One fixed-system assignment (galaxy.cpp:711-802). -/
def fixedAssignStep (acc : List VoronoiSite × List StarSystem × Rng)
    (f : FixedSystem) : List VoronoiSite × List StarSystem × Rng :=
  let pr : Point × Rng :=
    if f.hasFixedPosition then ((f.x, f.y), acc.2.2) else acc.2.2.drawPos
  let closestSite := closestUnclaimedSite acc.1 pr.1
  (claimSite acc.1 closestSite f.id,
   acc.2.1 ++ [⟨f.id, pr.1.1, pr.1.2, f.type, true, [], f.type == "origin"⟩],
   pr.2)

/- One site of the fill loop (galaxy.cpp:804-856). -/
def fillStep (cfg : GalaxyConfig)
    (acc : List VoronoiSite × List StarSystem × Nat) (i : Nat) :
    List VoronoiSite × List StarSystem × Nat :=
  if !(decide (cfg.starSystemCount < 0) ||
       decide (acc.2.1.length < cfg.starSystemCount.toNat)) then acc
  else if (acc.1.getD i dummySite).hasSystem then acc
  else
    let site := acc.1.getD i dummySite
    (claimSite acc.1 i ("system-" ++ toString acc.2.2),
     acc.2.1 ++ [⟨"system-" ++ toString acc.2.2, site.x, site.y,
       determineSystemType site.pos, false, [], false⟩],
     acc.2.2 + 1)

/- galaxy.cpp:705-860.  Returns the updated member `voronoiSites` and the
systems. -/
def generateSystemsFromVoronoi (cfg : GalaxyConfig)
    (sitesIn : List VoronoiSite) (rng : Rng) :
    List VoronoiSite × List StarSystem × Rng :=
  let fixedPart := cfg.fixedSystems.foldl fixedAssignStep (sitesIn, [], rng)
  let filled := (List.range fixedPart.1.length).foldl (fillStep cfg)
    (fixedPart.1, fixedPart.2.1, 1)
  (filled.1, filled.2.1, fixedPart.2.2)

/- The lookup loop of galaxy.cpp:891-894: the *last* system whose id
matches wins. -/
def findLastSystem (systems : List StarSystem) (id : String) :
    Option StarSystem :=
  systems.foldl (fun acc sys => if sys.id = id then some sys else acc) none

/- One neighbor edge of the Voronoi lane loop (galaxy.cpp:880-913). -/
def voronoiLaneStep (cfg : GalaxyConfig) (sites : List VoronoiSite)
    (systems : List StarSystem) (i : Nat) (st : GraphState)
    (neighborIdx : Nat) : GraphState :=
  if decide (neighborIdx ≥ sites.length) ||
     !(sites.getD neighborIdx dummySite).hasSystem then st
  else if i < neighborIdx then
    match findLastSystem systems (sites.getD i dummySite).systemId,
        findLastSystem systems
          (sites.getD neighborIdx dummySite).systemId with
    | some system1, some system2 =>
      let distance := dist2 system1.pos system2.pos
      let baseMaxDistance :=
        max (cfg.connectivity.maxDistance * (3/2)) (cfg.radius * (1/4))
      let maxVoronoiDistance :=
        calculateTieredDistance system1 system2 baseMaxDistance
      if distLe distance maxVoronoiDistance then
        createWarpLane system1 system2 distance st
      else st
    | _, _ => st
  else st

/- One site of the Voronoi lane loop (galaxy.cpp:877-914). -/
def voronoiSiteLanes (cfg : GalaxyConfig) (sites : List VoronoiSite)
    (systems : List StarSystem) (st : GraphState) (i : Nat) : GraphState :=
  if !(sites.getD i dummySite).hasSystem then st
  else
    ((sites.getD i dummySite).neighbors).foldl
      (voronoiLaneStep cfg sites systems i) st

/- galaxy.cpp:862-923. -/
def generateVoronoiWarpLanes (cfg : GalaxyConfig)
    (sites : List VoronoiSite) (systems : List StarSystem) : GraphState :=
  let st1 := (List.range sites.length).foldl
    (voronoiSiteLanes cfg sites systems) ⟨[], fun _ => []⟩
  ensureMinimumConnectivity cfg systems st1

/- ---------------------------------------------------------------- -/
/- addRedundantConnections (galaxy.cpp:925-1032)                     -/
/- ---------------------------------------------------------------- -/

/- Candidate ranking key: `score = distance / (1 + targetConnections*0.2)`
compared under `std::sort` on `pair<double, StarSystem*>`; the squared key
`dist2 / (1 + k/5)²` orders identically, and the pointer tie-break is the
index order of the systems vector. -/
def scoreLE (a b : ℚ × Nat) : Bool := distIdxLE a b

/- The galaxy centroid (galaxy.cpp:939-945). -/
def galaxyCenter (systems : List StarSystem) : Point :=
  ((systems.map (fun s => s.x)).sum / systems.length,
   (systems.map (fun s => s.y)).sum / systems.length)

/- The vulnerability test of galaxy.cpp:947-960, on system indices. -/
def vulnerableIdxs (cfg : GalaxyConfig) (systems : List StarSystem)
    (st : GraphState) : List Nat :=
  (List.range systems.length).filter
    (fun i =>
      let system := systems.getD i dummySystem
      let connectionCount := (st.connections system.id).length
      decide (connectionCount ≤ 2) ||
        (!distLe (dist2 system.pos (galaxyCenter systems))
            (cfg.radius * (3/5)) &&
          decide (connectionCount < 4)))

/- The ranked candidate targets for one vulnerable system
(galaxy.cpp:971-1000). -/
def redundantTargets (systems : List StarSystem)
    (st : GraphState) (vIdx : Nat) : List (ℚ × Nat) :=
  ((List.range systems.length).filterMap
    (fun tIdx =>
      if tIdx = vIdx then none
      else
        let targetSystem := systems.getD tIdx dummySystem
        if targetSystem.id ∈
            st.connections (systems.getD vIdx dummySystem).id then none
        else
          let d := dist2 (systems.getD vIdx dummySystem).pos
            targetSystem.pos
          let a : ℚ :=
            1 + ((st.connections targetSystem.id).length : ℚ) * (1/5)
          some (d / (a * a), tIdx))).mergeSort scoreLE

/- One candidate of the inner adding loop (galaxy.cpp:1005-1023). -/
def redundantInnerStep (cfg : GalaxyConfig) (systems : List StarSystem)
    (vIdx : Nat) (maxRedundantConnections : Nat) (acc : GraphState × Nat)
    (e : ℚ × Nat) : GraphState × Nat :=
  if acc.2 ≥ maxRedundantConnections then acc
  else
    let vulnSystem := systems.getD vIdx dummySystem
    let targetSystem := systems.getD e.2 dummySystem
    let distance := dist2 vulnSystem.pos targetSystem.pos
    if distLt distance (cfg.radius * (2/5)) then
      (createWarpLane vulnSystem targetSystem distance acc.1, acc.2 + 1)
    else acc

/- One vulnerable system (galaxy.cpp:968-1024). -/
def redundantVulnStep (cfg : GalaxyConfig) (systems : List StarSystem)
    (maxRedundantConnections : Nat) (acc : GraphState × Nat)
    (vIdx : Nat) : GraphState × Nat :=
  if acc.2 ≥ maxRedundantConnections then acc
  else
    let sortedP := redundantTargets systems acc.1 vIdx
    let connectionsToAdd :=
      if (acc.1.connections (systems.getD vIdx dummySystem).id).length = 1
      then 2 else 1
    (sortedP.take connectionsToAdd).foldl
      (redundantInnerStep cfg systems vIdx maxRedundantConnections) acc

def addRedundantConnections (cfg : GalaxyConfig)
    (systems : List StarSystem) (st : GraphState) : GraphState :=
  if systems.length < 3 then st
  else
    ((vulnerableIdxs cfg systems st).foldl
      (redundantVulnStep cfg systems (min (systems.length / 4) 40))
      (st, 0)).1

/- ---------------------------------------------------------------- -/
/- generateGalaxy (galaxy.cpp:18-104)                                -/
/- ---------------------------------------------------------------- -/

/- The rebuild of the side map from the lane list (galaxy.cpp:50-59). -/
def connFromLanes (lanes : List WarpLane) : ConnMap :=
  lanes.foldl
    (fun c lane => connPush (connPush c lane.fromId lane.toId)
      lane.toId lane.fromId)
    (fun _ => [])

/- The member `voronoiSites` after a run, when the Voronoi path is taken. -/
def voronoiPipelineSites (cfg : GalaxyConfig) (rng : Rng) :
    List VoronoiSite :=
  (generateSystemsFromVoronoi cfg
    (computeVoronoiNeighbors cfg
      (generateVoronoiSites [] cfg.starSystemCount rng).1)
    (generateVoronoiSites [] cfg.starSystemCount rng).2).1

/- The branch of galaxy.cpp:24-46: systems, warp lanes and the advanced
random source. -/
def stage1SystemsLanes (cfg : GalaxyConfig) (rng : Rng) :
    List StarSystem × List WarpLane × Rng :=
  if cfg.connectivity.useVoronoiConnectivity then
    let sv := generateVoronoiSites [] cfg.starSystemCount rng
    let gs := generateSystemsFromVoronoi cfg
      (computeVoronoiNeighbors cfg sv.1) sv.2
    ((gs.2.1 : List StarSystem),
     (generateVoronoiWarpLanes cfg gs.1 gs.2.1).warpLanes, gs.2.2)
  else
    let gs := generateStarSystems cfg rng
    (gs.1, (generateWarpLanes cfg gs.1 gs.2).1.warpLanes,
     (generateWarpLanes cfg gs.1 gs.2).2)

def generateGalaxy (cfg : GalaxyConfig) (rng : Rng) : Galaxy :=
  let stage1 := stage1SystemsLanes cfg rng
  let st1 := addRedundantConnections cfg stage1.1
    ⟨stage1.2.1, connFromLanes stage1.2.1⟩
  let st2 := ensureMinimumConnectivity cfg stage1.1 st1
  let systemsF := stage1.1.map
    (fun s => ⟨s.id, s.x, s.y, s.type, s.isFixed,
      st2.connections s.id, s.explored⟩)
  let anomalies := (generateAnomalies cfg systemsF stage1.2.2).1
  ⟨cfg, systemsF, anomalies, st2.warpLanes,
    ⟨-cfg.radius, cfg.radius, -cfg.radius, cfg.radius, cfg.radius⟩⟩

/- ================================================================ -/
/- Proof development                                                 -/
/- ================================================================ -/

/- ---------------------------------------------------------------- -/
/- Graph-state invariants                                            -/
/- ---------------------------------------------------------------- -/

/- Some lane of `lanes` joins ids `a` and `b` (in either direction). -/
def laneBetween (lanes : List WarpLane) (a b : String) : Prop :=
  ∃ l ∈ lanes, (l.fromId = a ∧ l.toId = b) ∨ (l.fromId = b ∧ l.toId = a)

/- The side connection map and the lane list describe the same relation. -/
def AdjInv (st : GraphState) : Prop :=
  ∀ a b, b ∈ st.connections a ↔ laneBetween st.warpLanes a b

def NoSelf (lanes : List WarpLane) : Prop :=
  ∀ l ∈ lanes, l.fromId ≠ l.toId

def sameEnds (l1 l2 : WarpLane) : Prop :=
  (l1.fromId = l2.fromId ∧ l1.toId = l2.toId) ∨
  (l1.fromId = l2.toId ∧ l1.toId = l2.fromId)

/- No two lanes share an unordered endpoint pair. -/
def PairUnique (lanes : List WarpLane) : Prop :=
  List.Pairwise (fun l1 l2 => ¬ sameEnds l1 l2) lanes

def GoodState (st : GraphState) : Prop :=
  AdjInv st ∧ NoSelf st.warpLanes ∧ PairUnique st.warpLanes

theorem laneBetween_symm {lanes : List WarpLane} {a b : String}
    (h : laneBetween lanes a b) : laneBetween lanes b a := by
  obtain ⟨l, hl, hc⟩ := h
  exact ⟨l, hl, hc.elim (fun h => Or.inr ⟨h.1, h.2⟩) (fun h => Or.inl ⟨h.1, h.2⟩)⟩

theorem laneBetween_append {l1 l2 : List WarpLane} {a b : String} :
    laneBetween (l1 ++ l2) a b ↔ laneBetween l1 a b ∨ laneBetween l2 a b := by
  constructor
  · rintro ⟨l, hl, hc⟩
    rcases List.mem_append.1 hl with h | h
    · exact Or.inl ⟨l, h, hc⟩
    · exact Or.inr ⟨l, h, hc⟩
  · rintro (⟨l, hl, hc⟩ | ⟨l, hl, hc⟩)
    · exact ⟨l, List.mem_append.2 (Or.inl hl), hc⟩
    · exact ⟨l, List.mem_append.2 (Or.inr hl), hc⟩

theorem laneBetween_single {l : WarpLane} {a b : String} :
    laneBetween [l] a b ↔
      (l.fromId = a ∧ l.toId = b) ∨ (l.fromId = b ∧ l.toId = a) := by
  constructor
  · rintro ⟨l', hl', hc⟩
    rcases List.mem_singleton.1 hl' with rfl
    exact hc
  · intro hc
    exact ⟨l, List.mem_singleton.2 rfl, hc⟩

theorem connPush_apply (conn : ConnMap) (key v k : String) :
    connPush conn key v k = if k = key then conn k ++ [v] else conn k := rfl

theorem mem_connPush {conn : ConnMap} {key v k b : String} :
    b ∈ connPush conn key v k ↔ b ∈ conn k ∨ (k = key ∧ b = v) := by
  rw [connPush_apply]
  by_cases h : k = key
  · subst h; simp
  · simp [h]

/- `createWarpLane` in the already-connected case: a silent no-op. -/
theorem createWarpLane_noop {system1 system2 : StarSystem} {distance : ℚ}
    {st : GraphState} (h : system2.id ∈ st.connections system1.id) :
    createWarpLane system1 system2 distance st = st := by
  unfold createWarpLane
  simp [h]

/- `createWarpLane` in the not-yet-connected case. -/
theorem createWarpLane_add {system1 system2 : StarSystem} {distance : ℚ}
    {st : GraphState} (h : system2.id ∉ st.connections system1.id) :
    createWarpLane system1 system2 distance st =
      ⟨st.warpLanes ++ [madeLane system1 system2 distance],
       connPush (connPush st.connections system1.id system2.id)
         system2.id system1.id⟩ := by
  unfold createWarpLane
  simp [h]
  rfl

/- The lane list only grows, by at most the freshly made lane. -/
theorem createWarpLane_lanes (system1 system2 : StarSystem) (distance : ℚ)
    (st : GraphState) :
    (createWarpLane system1 system2 distance st).warpLanes = st.warpLanes ∨
    (createWarpLane system1 system2 distance st).warpLanes =
      st.warpLanes ++ [madeLane system1 system2 distance] := by
  by_cases h : system2.id ∈ st.connections system1.id
  · rw [createWarpLane_noop h]; exact Or.inl rfl
  · rw [createWarpLane_add h]; exact Or.inr rfl

theorem goodState_createWarpLane {st : GraphState}
    (hgood : GoodState st) (system1 system2 : StarSystem) (distance : ℚ)
    (hne : system1.id ≠ system2.id) :
    GoodState (createWarpLane system1 system2 distance st) := by
  obtain ⟨hadj, hns, hpu⟩ := hgood
  by_cases h : system2.id ∈ st.connections system1.id
  · rw [createWarpLane_noop h]; exact ⟨hadj, hns, hpu⟩
  · rw [createWarpLane_add h]
    refine ⟨?_, ?_, ?_⟩
    · intro a b
      show b ∈ connPush (connPush st.connections system1.id system2.id)
          system2.id system1.id a ↔ _
      rw [mem_connPush, mem_connPush, laneBetween_append, laneBetween_single,
        hadj]
      show _ ↔ _ ∨ (madeLane system1 system2 distance).fromId = a ∧ _ ∨
        (madeLane system1 system2 distance).fromId = b ∧ _
      show _ ↔ _ ∨ system1.id = a ∧ system2.id = b ∨
        system1.id = b ∧ system2.id = a
      constructor
      · rintro ((hb | ⟨rfl, rfl⟩) | ⟨rfl, rfl⟩)
        · exact Or.inl hb
        · exact Or.inr (Or.inl ⟨rfl, rfl⟩)
        · exact Or.inr (Or.inr ⟨rfl, rfl⟩)
      · rintro (hb | ⟨rfl, rfl⟩ | ⟨rfl, rfl⟩)
        · exact Or.inl (Or.inl hb)
        · exact Or.inl (Or.inr ⟨rfl, rfl⟩)
        · exact Or.inr ⟨rfl, rfl⟩
    · intro l hl
      rcases List.mem_append.1 hl with hl | hl
      · exact hns l hl
      · rcases List.mem_singleton.1 hl with rfl
        exact hne
    · show List.Pairwise (fun l1 l2 => ¬ sameEnds l1 l2)
        (st.warpLanes ++ [madeLane system1 system2 distance])
      rw [List.pairwise_append]
      refine ⟨hpu, List.pairwise_singleton _ _, ?_⟩
      intro l1 hl1 l2 hl2 hse
      rcases List.mem_singleton.1 hl2 with rfl
      apply h
      rw [hadj]
      rcases hse with ⟨h1, h2⟩ | ⟨h1, h2⟩
      · exact ⟨l1, hl1, Or.inl ⟨h1, h2⟩⟩
      · exact ⟨l1, hl1, Or.inr ⟨h1, h2⟩⟩

/- Generic preservation through a left fold. -/
theorem foldl_preserve {α β : Type} (P : β → Prop) (f : β → α → β)
    (l : List α) (init : β) (hinit : P init)
    (hstep : ∀ b a, a ∈ l → P b → P (f b a)) : P (l.foldl f init) := by
  induction l generalizing init with
  | nil => exact hinit
  | cons x xs ih =>
    exact ih (f init x) (hstep init x (List.mem_cons_self x xs) hinit)
      (fun b a ha hb => hstep b a (List.mem_cons_of_mem x ha) hb)

/- ---------------------------------------------------------------- -/
/- Union-find theory                                                 -/
/- ---------------------------------------------------------------- -/

def ufIter (parent : List Nat) : Nat → Nat → Nat
  | 0, x => x
  | k + 1, x => ufIter parent k (ufStep parent x)

theorem ufIter_succ_front (p : List Nat) (k x : Nat) :
    ufIter p (k + 1) x = ufIter p k (ufStep p x) := rfl

theorem ufIter_add (p : List Nat) (k m x : Nat) :
    ufIter p (k + m) x = ufIter p m (ufIter p k x) := by
  induction k generalizing x with
  | zero => rw [Nat.zero_add]; rfl
  | succ k ih =>
    have he : k + 1 + m = (k + m) + 1 := by omega
    rw [he, ufIter_succ_front, ih, ← ufIter_succ_front]

theorem ufIter_succ_back (p : List Nat) (k x : Nat) :
    ufIter p (k + 1) x = ufStep p (ufIter p k x) := by
  rw [ufIter_add p k 1 x]; rfl

/- `r` is the root that `x` reaches along the parent array. -/
def IsRootOf (p : List Nat) (x r : Nat) : Prop :=
  (∃ k, ufIter p k x = r) ∧ ufStep p r = r

theorem fix_ufIter {p : List Nat} {r : Nat} (h : ufStep p r = r) :
    ∀ k, ufIter p k r = r
  | 0 => rfl
  | k + 1 => by rw [ufIter_succ_front, h, fix_ufIter h k]

theorem isRootOf_unique {p : List Nat} {x r1 r2 : Nat}
    (h1 : IsRootOf p x r1) (h2 : IsRootOf p x r2) : r1 = r2 := by
  obtain ⟨⟨k1, e1⟩, f1⟩ := h1
  obtain ⟨⟨k2, e2⟩, f2⟩ := h2
  have key : ∀ (a b : Nat) (ra rb : Nat), a ≤ b → ufIter p a x = ra →
      ufStep p ra = ra → ufIter p b x = rb → rb = ra := by
    intro a b ra rb hab ea fa eb
    have e := ufIter_add p a (b - a) x
    rw [Nat.add_sub_cancel' hab] at e
    rw [← eb, e, ea, fix_ufIter fa]
  rcases le_total k1 k2 with h | h
  · exact (key k1 k2 r1 r2 h e1 f1 e2).symm
  · exact key k2 k1 r2 r1 h e2 f2 e1

theorem isRootOf_step {p : List Nat} {x r : Nat}
    (h : IsRootOf p (ufStep p x) r) : IsRootOf p x r := by
  obtain ⟨⟨k, e⟩, f⟩ := h
  exact ⟨⟨k + 1, by rw [ufIter_succ_front]; exact e⟩, f⟩

/- The parent chain from `x` hits a fixpoint within `f` steps. -/
def FixWithin (p : List Nat) (f x : Nat) : Prop :=
  ∃ k ≤ f, ufStep p (ufIter p k x) = ufIter p k x

theorem findAux_isRoot (p : List Nat) :
    ∀ f x, FixWithin p f x → IsRootOf p x (findAux p f x) := by
  intro f
  induction f with
  | zero =>
    rintro x ⟨k, hk, hfix⟩
    rcases Nat.le_zero.1 hk with rfl
    exact ⟨⟨0, rfl⟩, hfix⟩
  | succ f ih =>
    rintro x ⟨k, hk, hfix⟩
    by_cases hx : ufStep p x = x
    · have he : findAux p (f + 1) x = x := if_pos hx
      rw [he]
      exact ⟨⟨0, rfl⟩, hx⟩
    · have he : findAux p (f + 1) x = findAux p f (ufStep p x) := if_neg hx
      rw [he]
      apply isRootOf_step
      apply ih
      cases k with
      | zero => exact absurd hfix hx
      | succ k' => exact ⟨k', by omega, hfix⟩

/- Well-formedness: in-range parents and strictly increasing rank along
non-trivial parent links - the union-by-rank invariant. -/
def UFWF (n : Nat) (uf : UnionFind) : Prop :=
  uf.parent.length = n ∧ uf.rank.length = n ∧
  (∀ x, x < n → ufStep uf.parent x < n) ∧
  (∀ x, x < n → ufStep uf.parent x ≠ x →
    uf.rank.getD x 0 < uf.rank.getD (ufStep uf.parent x) 0)

theorem ufIter_lt {n : Nat} {p : List Nat}
    (hcl : ∀ x, x < n → ufStep p x < n) :
    ∀ k x, x < n → ufIter p k x < n := by
  intro k
  induction k with
  | zero => intro x hx; exact hx
  | succ k ih => intro x hx; rw [ufIter_succ_front]; exact ih _ (hcl x hx)

theorem fixWithin_of_wf {n : Nat} {uf : UnionFind} (h : UFWF n uf) :
    ∀ x, x < n → FixWithin uf.parent n x := by
  intro x hx
  by_contra hno
  rw [FixWithin] at hno
  push_neg at hno
  have hmono : ∀ l, l ≤ n → ∀ k, k < l →
      uf.rank.getD (ufIter uf.parent k x) 0 <
        uf.rank.getD (ufIter uf.parent l x) 0 := by
    intro l
    induction l with
    | zero => intro _ k hk; omega
    | succ l ih =>
      intro hln k hk
      have hstep : uf.rank.getD (ufIter uf.parent l x) 0 <
          uf.rank.getD (ufIter uf.parent (l + 1) x) 0 := by
        rw [ufIter_succ_back]
        exact h.2.2.2 _ (ufIter_lt h.2.2.1 l x hx) (hno l (by omega))
      rcases Nat.lt_succ_iff_lt_or_eq.1 hk with h' | h'
      · exact lt_trans (ih (by omega) k h') hstep
      · rw [h']; exact hstep
  have hinj : Function.Injective
      (fun k : Fin (n + 1) =>
        (⟨ufIter uf.parent k x, ufIter_lt h.2.2.1 k x hx⟩ : Fin n)) := by
    intro a b hab
    have hv : ufIter uf.parent a x = ufIter uf.parent b x :=
      congrArg Fin.val hab
    by_contra hne
    have hne' : (a : Nat) ≠ (b : Nat) := fun hh => hne (Fin.ext hh)
    rcases Nat.lt_or_ge a b with hlt | hge
    · have := hmono b (Nat.lt_succ_iff.1 b.isLt) a hlt
      rw [hv] at this
      exact lt_irrefl _ this
    · have hlt : (b : Nat) < a := by omega
      have := hmono a (Nat.lt_succ_iff.1 a.isLt) b hlt
      rw [hv] at this
      exact lt_irrefl _ this
  have hcard := Fintype.card_le_of_injective _ hinj
  simp [Fintype.card_fin] at hcard

theorem ufFind_isRoot {n : Nat} {uf : UnionFind} (h : UFWF n uf) {x : Nat}
    (hx : x < n) : IsRootOf uf.parent x (ufFind uf x) := by
  have hfw := fixWithin_of_wf h x hx
  unfold ufFind
  rw [h.1]
  exact findAux_isRoot _ _ _ hfw

theorem ufFind_lt {n : Nat} {uf : UnionFind} (h : UFWF n uf) {x : Nat}
    (hx : x < n) : ufFind uf x < n := by
  obtain ⟨⟨k, e⟩, _⟩ := ufFind_isRoot h hx
  rw [← e]
  exact ufIter_lt h.2.2.1 k x hx

theorem ufFind_fix {n : Nat} {uf : UnionFind} (h : UFWF n uf) {x : Nat}
    (hx : x < n) : ufStep uf.parent (ufFind uf x) = ufFind uf x :=
  (ufFind_isRoot h hx).2

theorem ufFind_eq_of_isRoot {n : Nat} {uf : UnionFind} {x r : Nat}
    (h : UFWF n uf) (hx : x < n) (hr : IsRootOf uf.parent x r) :
    ufFind uf x = r :=
  isRootOf_unique (ufFind_isRoot h hx) hr

theorem getD_set_lemma {l : List Nat} {a : Nat} (b : Nat)
    (ha : a < l.length) (z d : Nat) :
    (l.set a b).getD z d = if z = a then b else l.getD z d := by
  rw [List.getD_eq_getElem?_getD, List.getElem?_set,
    List.getD_eq_getElem?_getD]
  by_cases hz : z = a
  · subst hz
    rw [if_pos rfl, if_pos rfl, if_pos ha]
    rfl
  · rw [if_neg hz, if_neg (fun hh => hz hh.symm)]

theorem ufStep_set {p : List Nat} {a : Nat} (b : Nat) (ha : a < p.length)
    (z : Nat) : ufStep (p.set a b) z = if z = a then b else ufStep p z :=
  getD_set_lemma b ha z z

/- Linking the root `a` to `b`: everything rooted elsewhere keeps its
root. -/
theorem isRootOf_set_ne {p : List Nat} {a b z r : Nat}
    (ha : a < p.length) (haroot : ufStep p a = a)
    (hr : IsRootOf p z r) (hra : r ≠ a) :
    IsRootOf (p.set a b) z r := by
  obtain ⟨⟨k, e⟩, f⟩ := hr
  have hfix' : ufStep (p.set a b) r = r := by
    rw [ufStep_set b ha, if_neg hra]; exact f
  have main : ∀ k z, ufIter p k z = r → ufIter (p.set a b) k z = r := by
    intro k
    induction k with
    | zero => intro z e; exact e
    | succ k ih =>
      intro z e
      have hz : z ≠ a := by
        intro hza
        subst hza
        rw [ufIter_succ_front, haroot, fix_ufIter haroot] at e
        exact hra e.symm
      rw [ufIter_succ_front, ufStep_set b ha, if_neg hz]
      rw [ufIter_succ_front] at e
      exact ih (ufStep p z) e
  exact ⟨⟨k, main k z e⟩, hfix'⟩

/- Linking the root `a` to the root `b ≠ a`: everything rooted at `a` is
now rooted at `b`. -/
theorem isRootOf_set_eq {p : List Nat} {a b z : Nat}
    (ha : a < p.length) (haroot : ufStep p a = a) (hbroot : ufStep p b = b)
    (hba : b ≠ a) (hz : IsRootOf p z a) : IsRootOf (p.set a b) z b := by
  have hfix' : ufStep (p.set a b) b = b := by
    rw [ufStep_set b ha, if_neg hba]; exact hbroot
  obtain ⟨⟨k, e⟩, _⟩ := hz
  have main : ∀ k z, ufIter p k z = a →
      ∃ m, ufIter (p.set a b) m z = b := by
    intro k
    induction k with
    | zero =>
      intro z e
      have hza : z = a := e
      subst hza
      refine ⟨1, ?_⟩
      rw [ufIter_succ_front, ufStep_set b ha, if_pos rfl]
      rfl
    | succ k ih =>
      intro z e
      by_cases hza : z = a
      · subst hza
        refine ⟨1, ?_⟩
        rw [ufIter_succ_front, ufStep_set b ha, if_pos rfl]
        rfl
      · rw [ufIter_succ_front] at e
        obtain ⟨m, hm⟩ := ih (ufStep p z) e
        refine ⟨m + 1, ?_⟩
        rw [ufIter_succ_front, ufStep_set b ha, if_neg hza]
        exact hm
  obtain ⟨m, hm⟩ := main k z e
  exact ⟨⟨m, hm⟩, hfix'⟩

/- The full behavioural specification of `ufUnite` on a well-formed state:
well-formedness is preserved, the returned flag reports whether the roots
differed, and the new root function rewrites both merged classes to one
common root and leaves every other class alone. -/
theorem ufUnite_spec {n : Nat} {uf : UnionFind} {x y : Nat}
    (h : UFWF n uf) (hx : x < n) (hy : y < n) :
    UFWF n (ufUnite uf x y).1 ∧
    ((ufUnite uf x y).2 = false →
      (ufUnite uf x y).1 = uf ∧ ufFind uf x = ufFind uf y) ∧
    ((ufUnite uf x y).2 = true → ufFind uf x ≠ ufFind uf y) ∧
    (∃ rt, (rt = ufFind uf x ∨ rt = ufFind uf y) ∧
      ∀ z, z < n → ufFind (ufUnite uf x y).1 z =
        if ufFind uf z = ufFind uf x ∨ ufFind uf z = ufFind uf y then rt
        else ufFind uf z) := by
  have hpxr := ufFind_isRoot h hx
  have hpyr := ufFind_isRoot h hy
  have hpxlt := ufFind_lt h hx
  have hpylt := ufFind_lt h hy
  by_cases hpq : ufFind uf x = ufFind uf y
  · have hres : ufUnite uf x y = (uf, false) := by
      unfold ufUnite; rw [if_pos hpq]
    rw [hres]
    refine ⟨h, fun _ => ⟨rfl, hpq⟩, fun hc => absurd hc (by simp), ?_⟩
    refine ⟨ufFind uf y, Or.inr rfl, ?_⟩
    intro z hz
    by_cases hc : ufFind uf z = ufFind uf x ∨ ufFind uf z = ufFind uf y
    · rw [if_pos hc]
      rcases hc with hc | hc
      · rw [hc, hpq]
      · rw [hc]
    · rw [if_neg hc]
  · -- the three rank branches all link one root to the other
    have key : ∀ (a b : Nat) (rank' : List Nat),
        a < n → b < n →
        (a = ufFind uf x ∧ b = ufFind uf y ∨
         a = ufFind uf y ∧ b = ufFind uf x) →
        rank'.length = n →
        (∀ z, z < n → ufStep uf.parent z ≠ z →
          rank'.getD z 0 < rank'.getD (ufStep uf.parent z) 0) →
        (rank'.getD a 0 < rank'.getD b 0) →
        UFWF n ⟨uf.parent.set a b, rank'⟩ ∧
        (∃ rt, (rt = ufFind uf x ∨ rt = ufFind uf y) ∧
          ∀ z, z < n → ufFind ⟨uf.parent.set a b, rank'⟩ z =
            if ufFind uf z = ufFind uf x ∨ ufFind uf z = ufFind uf y then rt
            else ufFind uf z) := by
      intro a b rank' han hbn hordir hrl hrc hrab
      have haroot : ufStep uf.parent a = a := by
        rcases hordir with ⟨rfl, _⟩ | ⟨rfl, _⟩
        · exact hpxr.2
        · exact hpyr.2
      have hbroot : ufStep uf.parent b = b := by
        rcases hordir with ⟨_, rfl⟩ | ⟨_, rfl⟩
        · exact hpyr.2
        · exact hpxr.2
      have hba : b ≠ a := by
        rcases hordir with ⟨rfl, rfl⟩ | ⟨rfl, rfl⟩
        · exact fun hh => hpq (hh.symm)
        · exact fun hh => hpq hh
      have halen : a < uf.parent.length := by rw [h.1]; exact han
      have hwf' : UFWF n ⟨uf.parent.set a b, rank'⟩ := by
        refine ⟨by rw [List.length_set]; exact h.1, hrl, ?_, ?_⟩
        · intro z hz
          show ufStep (uf.parent.set a b) z < n
          rw [ufStep_set b halen]
          by_cases hza : z = a
          · rw [if_pos hza]; exact hbn
          · rw [if_neg hza]; exact h.2.2.1 z hz
        · intro z hz hne
          show rank'.getD z 0 < rank'.getD (ufStep (uf.parent.set a b) z) 0
          rw [ufStep_set b halen] at hne ⊢
          by_cases hza : z = a
          · rw [if_pos hza] at hne ⊢
            subst hza
            exact hrab
          · rw [if_neg hza] at hne ⊢
            exact hrc z hz hne
      refine ⟨hwf', ?_⟩
      have hrw : ∀ z, z < n → ufFind ⟨uf.parent.set a b, rank'⟩ z =
          if ufFind uf z = a then b else ufFind uf z := by
        intro z hz
        by_cases hza : ufFind uf z = a
        · rw [if_pos hza]
          refine ufFind_eq_of_isRoot hwf' hz ?_
          exact isRootOf_set_eq halen haroot hbroot hba
            (hza ▸ ufFind_isRoot h hz)
        · rw [if_neg hza]
          refine ufFind_eq_of_isRoot hwf' hz ?_
          exact isRootOf_set_ne halen haroot (ufFind_isRoot h hz) hza
      refine ⟨b, ?_, ?_⟩
      · rcases hordir with ⟨_, rfl⟩ | ⟨_, rfl⟩
        · exact Or.inr rfl
        · exact Or.inl rfl
      · intro z hz
        rw [hrw z hz]
        rcases hordir with ⟨ha', hb'⟩ | ⟨ha', hb'⟩
        · subst ha'; subst hb'
          by_cases hc : ufFind uf z = ufFind uf x
          · rw [if_pos hc, if_pos (Or.inl hc)]
          · rw [if_neg hc]
            by_cases hc2 : ufFind uf z = ufFind uf y
            · rw [if_pos (Or.inr hc2), hc2]
            · rw [if_neg (fun hh => hh.elim hc hc2)]
        · subst ha'; subst hb'
          by_cases hc : ufFind uf z = ufFind uf y
          · rw [if_pos hc, if_pos (Or.inr hc)]
          · rw [if_neg hc]
            by_cases hc2 : ufFind uf z = ufFind uf x
            · rw [if_pos (Or.inl hc2), hc2]
            · rw [if_neg (fun hh => hh.elim hc2 hc)]
      -- end key
    have hrxlen : ufFind uf x < uf.rank.length := by rw [h.2.1]; exact hpxlt
    by_cases hr1 : uf.rank.getD (ufFind uf x) 0 < uf.rank.getD (ufFind uf y) 0
    · have hres : ufUnite uf x y =
          (⟨uf.parent.set (ufFind uf x) (ufFind uf y), uf.rank⟩, true) := by
        unfold ufUnite
        rw [if_neg hpq, if_pos hr1]
      rw [hres]
      obtain ⟨hwf', hex⟩ := key (ufFind uf x) (ufFind uf y) uf.rank hpxlt
        hpylt (Or.inl ⟨rfl, rfl⟩) h.2.1 h.2.2.2 hr1
      exact ⟨hwf', fun hc => by simp at hc, fun _ => hpq, hex⟩
    · by_cases hr2 : uf.rank.getD (ufFind uf y) 0 < uf.rank.getD (ufFind uf x) 0
      · have hres : ufUnite uf x y =
            (⟨uf.parent.set (ufFind uf y) (ufFind uf x), uf.rank⟩, true) := by
          unfold ufUnite
          rw [if_neg hpq, if_neg hr1, if_pos hr2]
        rw [hres]
        obtain ⟨hwf', hex⟩ := key (ufFind uf y) (ufFind uf x) uf.rank hpylt
          hpxlt (Or.inr ⟨rfl, rfl⟩) h.2.1 h.2.2.2 hr2
        exact ⟨hwf', fun hc => by simp at hc, fun _ => hpq, hex⟩
      · have hres : ufUnite uf x y =
            (⟨uf.parent.set (ufFind uf y) (ufFind uf x),
              uf.rank.set (ufFind uf x) (uf.rank.getD (ufFind uf x) 0 + 1)⟩,
             true) := by
          unfold ufUnite
          rw [if_neg hpq, if_neg hr1, if_neg hr2]
        rw [hres]
        have hreq : uf.rank.getD (ufFind uf y) 0 =
            uf.rank.getD (ufFind uf x) 0 := by omega
        have hrl' : (uf.rank.set (ufFind uf x)
            (uf.rank.getD (ufFind uf x) 0 + 1)).length = n := by
          rw [List.length_set]; exact h.2.1
        have hgd : ∀ z d, (uf.rank.set (ufFind uf x)
            (uf.rank.getD (ufFind uf x) 0 + 1)).getD z d =
            if z = ufFind uf x then uf.rank.getD (ufFind uf x) 0 + 1
            else uf.rank.getD z d := by
          intro z d
          rw [getD_set_lemma _ hrxlen]
        have hrc' : ∀ z, z < n → ufStep uf.parent z ≠ z →
            (uf.rank.set (ufFind uf x)
              (uf.rank.getD (ufFind uf x) 0 + 1)).getD z 0 <
            (uf.rank.set (ufFind uf x)
              (uf.rank.getD (ufFind uf x) 0 + 1)).getD
              (ufStep uf.parent z) 0 := by
          intro z hz hne
          rw [hgd, hgd]
          have hzx : z ≠ ufFind uf x := by
            intro hh
            subst hh
            exact hne hpxr.2
          rw [if_neg hzx]
          by_cases hsx : ufStep uf.parent z = ufFind uf x
          · rw [if_pos hsx]
            have := h.2.2.2 z hz hne
            rw [hsx] at this
            omega
          · rw [if_neg hsx]
            exact h.2.2.2 z hz hne
        have hrab' : (uf.rank.set (ufFind uf x)
            (uf.rank.getD (ufFind uf x) 0 + 1)).getD (ufFind uf y) 0 <
            (uf.rank.set (ufFind uf x)
              (uf.rank.getD (ufFind uf x) 0 + 1)).getD (ufFind uf x) 0 := by
          rw [hgd, hgd, if_pos rfl, if_neg (fun hh => hpq hh.symm)]
          omega
        obtain ⟨hwf', hex⟩ := key (ufFind uf y) (ufFind uf x) _ hpylt hpxlt
          (Or.inr ⟨rfl, rfl⟩) hrl' hrc' hrab'
        exact ⟨hwf', fun hc => by simp at hc, fun _ => hpq, hex⟩

/- ---------------------------------------------------------------- -/
/- Index-level lane reachability                                     -/
/- ---------------------------------------------------------------- -/

def idOf (systems : List StarSystem) (i : Nat) : String :=
  (systems.getD i dummySystem).id

/- Some lane joins the systems at indices `i` and `j`. -/
def laneEdge (systems : List StarSystem) (lanes : List WarpLane)
    (i j : Nat) : Prop :=
  i < systems.length ∧ j < systems.length ∧
  laneBetween lanes (idOf systems i) (idOf systems j)

/- "Reachable via lanes": the reflexive-transitive closure of `laneEdge`. -/
def ReachIdx (systems : List StarSystem) (lanes : List WarpLane) :
    Nat → Nat → Prop :=
  Relation.ReflTransGen (laneEdge systems lanes)

theorem laneEdge_symm {systems lanes} :
    Symmetric (laneEdge systems lanes) := by
  rintro i j ⟨hi, hj, hb⟩
  exact ⟨hj, hi, laneBetween_symm hb⟩

theorem reachIdx_symm {systems lanes} {i j : Nat}
    (h : ReachIdx systems lanes i j) : ReachIdx systems lanes j i :=
  Relation.ReflTransGen.symmetric laneEdge_symm h

theorem reachIdx_mono {systems : List StarSystem} {lanes ext : List WarpLane}
    {i j : Nat} (h : ReachIdx systems lanes i j) :
    ReachIdx systems (lanes ++ ext) i j := by
  refine Relation.ReflTransGen.mono ?_ h
  rintro a b ⟨ha, hb, hlb⟩
  exact ⟨ha, hb, laneBetween_append.2 (Or.inl hlb)⟩

theorem idOf_mem {systems : List StarSystem} {i : Nat}
    (hi : i < systems.length) :
    idOf systems i ∈ systems.map StarSystem.id := by
  unfold idOf
  rw [List.getD_eq_getElem _ _ hi]
  exact List.mem_map_of_mem _ (List.getElem_mem hi)

theorem idOf_inj {systems : List StarSystem}
    (hnd : (systems.map StarSystem.id).Nodup) {i j : Nat}
    (hi : i < systems.length) (hj : j < systems.length)
    (he : idOf systems i = idOf systems j) : i = j := by
  unfold idOf at he
  rw [List.getD_eq_getElem _ _ hi, List.getD_eq_getElem _ _ hj] at he
  have hi' : i < (systems.map StarSystem.id).length := by
    rw [List.length_map]; exact hi
  have hj' : j < (systems.map StarSystem.id).length := by
    rw [List.length_map]; exact hj
  have he' : (systems.map StarSystem.id).get ⟨i, hi'⟩ =
      (systems.map StarSystem.id).get ⟨j, hj'⟩ := by
    show (systems.map StarSystem.id)[i] = (systems.map StarSystem.id)[j]
    rw [List.getElem_map, List.getElem_map]
    exact he
  have := (hnd.get_inj_iff).1 he'
  exact congrArg Fin.val this

theorem idOf_ne {systems : List StarSystem}
    (hnd : (systems.map StarSystem.id).Nodup) {i j : Nat}
    (hi : i < systems.length) (hj : j < systems.length) (hne : i ≠ j) :
    idOf systems i ≠ idOf systems j :=
  fun he => hne (idOf_inj hnd hi hj he)

/- ---------------------------------------------------------------- -/
/- lastIdxOf and pairsUnder                                          -/
/- ---------------------------------------------------------------- -/

theorem foldIf_some {P : Nat → Prop} [DecidablePred P] :
    ∀ (l : List Nat) (acc : Option Nat) (i : Nat),
      l.foldl (fun acc x => if P x then some x else acc) acc = some i →
      (i ∈ l ∧ P i) ∨ acc = some i := by
  intro l
  induction l with
  | nil => intro acc i h; exact Or.inr h
  | cons x xs ih =>
    intro acc i h
    rcases ih _ i h with ⟨hm, hp⟩ | hacc
    · exact Or.inl ⟨List.mem_cons_of_mem x hm, hp⟩
    · dsimp only at hacc
      by_cases hpx : P x
      · rw [if_pos hpx] at hacc
        rcases Option.some.inj hacc with rfl
        exact Or.inl ⟨List.mem_cons_self x xs, hpx⟩
      · rw [if_neg hpx] at hacc
        exact Or.inr hacc

theorem foldIf_isSome {P : Nat → Prop} [DecidablePred P] :
    ∀ (l : List Nat) (acc : Option Nat),
      ((∃ i ∈ l, P i) ∨ acc.isSome) →
      (l.foldl (fun acc x => if P x then some x else acc) acc).isSome := by
  intro l
  induction l with
  | nil =>
    rintro acc (⟨i, hm, _⟩ | hs)
    · exact absurd hm (List.not_mem_nil i)
    · exact hs
  | cons x xs ih =>
    rintro acc (⟨i, hm, hp⟩ | hs)
    · rcases List.mem_cons.1 hm with rfl | hm'
      · apply ih
        refine Or.inr ?_
        dsimp only
        rw [if_pos hp]
        rfl
      · exact ih _ (Or.inl ⟨i, hm', hp⟩)
    · apply ih
      refine Or.inr ?_
      dsimp only
      by_cases hpx : P x
      · rw [if_pos hpx]; rfl
      · rw [if_neg hpx]; exact hs

theorem lastIdxOf_spec {systems : List StarSystem} {a : String}
    (ha : a ∈ systems.map StarSystem.id) :
    ∃ i, lastIdxOf systems a = some i ∧ i < systems.length ∧
      idOf systems i = a := by
  have hex : ∃ i ∈ List.range systems.length, idOf systems i = a := by
    rcases List.mem_iff_getElem.1 ha with ⟨k, hk, he⟩
    rw [List.length_map] at hk
    refine ⟨k, List.mem_range.2 hk, ?_⟩
    rw [List.getElem_map] at he
    unfold idOf
    rw [List.getD_eq_getElem _ _ hk]
    exact he
  have hsome := foldIf_isSome (P := fun i => idOf systems i = a)
    (List.range systems.length) none (Or.inl hex)
  rcases Option.isSome_iff_exists.1 hsome with ⟨i, hi⟩
  have hi' : lastIdxOf systems a = some i := hi
  rcases foldIf_some (P := fun i => idOf systems i = a) _ _ _ hi' with
    ⟨hm, hp⟩ | hnone
  · exact ⟨i, hi', List.mem_range.1 hm, hp⟩
  · exact absurd hnone (by simp)

theorem pairsUnder_mem {n i j : Nat} :
    (i, j) ∈ pairsUnder n ↔ i < j ∧ j < n := by
  unfold pairsUnder
  rw [List.mem_flatMap]
  constructor
  · rintro ⟨a, ha, hm⟩
    rcases List.mem_map.1 hm with ⟨b, hb, he⟩
    injection he with h1 h2
    subst h1
    subst h2
    rcases List.mem_filter.1 hb with ⟨hbr, hab⟩
    exact ⟨of_decide_eq_true hab, List.mem_range.1 hbr⟩
  · rintro ⟨hij, hjn⟩
    refine ⟨i, List.mem_range.2 (lt_trans hij hjn), ?_⟩
    refine List.mem_map.2 ⟨j, ?_, rfl⟩
    exact List.mem_filter.2 ⟨List.mem_range.2 hjn, decide_eq_true hij⟩

/- ---------------------------------------------------------------- -/
/- Union-find mirrors lane reachability                              -/
/- ---------------------------------------------------------------- -/

/- The union-find partition coincides with lane reachability. -/
def ufMatches (systems : List StarSystem) (lanes : List WarpLane)
    (uf : UnionFind) : Prop :=
  ∀ a b, a < systems.length → b < systems.length →
    (ufFind uf a = ufFind uf b ↔ ReachIdx systems lanes a b)

def EndpointsIn (systems : List StarSystem) (lanes : List WarpLane) : Prop :=
  ∀ l ∈ lanes, l.fromId ∈ systems.map StarSystem.id ∧
    l.toId ∈ systems.map StarSystem.id

theorem laneEdge_append_iff {systems : List StarSystem}
    {lanes : List WarpLane} {l : WarpLane} {i j : Nat}
    (hnd : (systems.map StarSystem.id).Nodup)
    (hi : i < systems.length) (hj : j < systems.length)
    (hfrom : l.fromId = idOf systems i) (hto : l.toId = idOf systems j)
    (a b : Nat) :
    laneEdge systems (lanes ++ [l]) a b ↔
      laneEdge systems lanes a b ∨ (a = i ∧ b = j) ∨ (a = j ∧ b = i) := by
  constructor
  · rintro ⟨ha, hb, hlb⟩
    rcases laneBetween_append.1 hlb with h | h
    · exact Or.inl ⟨ha, hb, h⟩
    · rcases laneBetween_single.1 h with ⟨h1, h2⟩ | ⟨h1, h2⟩
      · refine Or.inr (Or.inl ⟨?_, ?_⟩)
        · exact idOf_inj hnd ha hi (h1.symm.trans hfrom)
        · exact idOf_inj hnd hb hj (h2.symm.trans hto)
      · refine Or.inr (Or.inr ⟨?_, ?_⟩)
        · exact idOf_inj hnd ha hj (h2.symm.trans hto)
        · exact idOf_inj hnd hb hi (h1.symm.trans hfrom)
  · rintro (h | ⟨rfl, rfl⟩ | ⟨rfl, rfl⟩)
    · exact ⟨h.1, h.2.1, laneBetween_append.2 (Or.inl h.2.2)⟩
    · exact ⟨hi, hj, laneBetween_append.2
        (Or.inr (laneBetween_single.2 (Or.inl ⟨hfrom, hto⟩)))⟩
    · exact ⟨hj, hi, laneBetween_append.2
        (Or.inr (laneBetween_single.2 (Or.inr ⟨hfrom, hto⟩)))⟩

theorem reach_append_iff {systems : List StarSystem}
    {lanes : List WarpLane} {l : WarpLane} {i j : Nat}
    (hnd : (systems.map StarSystem.id).Nodup)
    (hi : i < systems.length) (hj : j < systems.length)
    (hfrom : l.fromId = idOf systems i) (hto : l.toId = idOf systems j)
    (a b : Nat) :
    ReachIdx systems (lanes ++ [l]) a b ↔
      ReachIdx systems lanes a b ∨
      (ReachIdx systems lanes a i ∧ ReachIdx systems lanes j b) ∨
      (ReachIdx systems lanes a j ∧ ReachIdx systems lanes i b) := by
  have hedge : laneEdge systems (lanes ++ [l]) i j :=
    ⟨hi, hj, laneBetween_append.2
      (Or.inr (laneBetween_single.2 (Or.inl ⟨hfrom, hto⟩)))⟩
  constructor
  · intro h
    induction h with
    | refl => exact Or.inl Relation.ReflTransGen.refl
    | tail hac e ih =>
      rcases (laneEdge_append_iff hnd hi hj hfrom hto _ _).1 e with
        he | ⟨rfl, rfl⟩ | ⟨rfl, rfl⟩
      · rcases ih with h1 | ⟨h1, h2⟩ | ⟨h1, h2⟩
        · exact Or.inl (h1.tail he)
        · exact Or.inr (Or.inl ⟨h1, h2.tail he⟩)
        · exact Or.inr (Or.inr ⟨h1, h2.tail he⟩)
      · rcases ih with h1 | ⟨h1, h2⟩ | ⟨h1, h2⟩
        · exact Or.inr (Or.inl ⟨h1, Relation.ReflTransGen.refl⟩)
        · exact Or.inr (Or.inl ⟨h1, Relation.ReflTransGen.refl⟩)
        · exact Or.inl h1
      · rcases ih with h1 | ⟨h1, h2⟩ | ⟨h1, h2⟩
        · exact Or.inr (Or.inr ⟨h1, Relation.ReflTransGen.refl⟩)
        · exact Or.inl h1
        · exact Or.inr (Or.inr ⟨h1, Relation.ReflTransGen.refl⟩)
  · rintro (h | ⟨h1, h2⟩ | ⟨h1, h2⟩)
    · exact reachIdx_mono h
    · exact (reachIdx_mono h1).trans
        ((Relation.ReflTransGen.single hedge).trans (reachIdx_mono h2))
    · exact (reachIdx_mono h1).trans
        ((Relation.ReflTransGen.single (laneEdge_symm hedge)).trans
          (reachIdx_mono h2))

theorem ufUnite_sameRoot_iff {uf : UnionFind} {n x y : Nat}
    (h : UFWF n uf) (hx : x < n) (hy : y < n) {a b : Nat}
    (ha : a < n) (hb : b < n) :
    ufFind (ufUnite uf x y).1 a = ufFind (ufUnite uf x y).1 b ↔
      (ufFind uf a = ufFind uf b ∨
       (ufFind uf a = ufFind uf x ∧ ufFind uf b = ufFind uf y) ∨
       (ufFind uf a = ufFind uf y ∧ ufFind uf b = ufFind uf x)) := by
  obtain ⟨-, -, -, rt, hor, hrw⟩ := ufUnite_spec h hx hy
  rw [hrw a ha, hrw b hb]
  by_cases hpa : ufFind uf a = ufFind uf x ∨ ufFind uf a = ufFind uf y
  · rw [if_pos hpa]
    by_cases hpb : ufFind uf b = ufFind uf x ∨ ufFind uf b = ufFind uf y
    · rw [if_pos hpb]
      refine ⟨fun _ => ?_, fun _ => rfl⟩
      rcases hpa with hpa | hpa
      · rcases hpb with hpb | hpb
        · exact Or.inl (hpa.trans hpb.symm)
        · exact Or.inr (Or.inl ⟨hpa, hpb⟩)
      · rcases hpb with hpb | hpb
        · exact Or.inr (Or.inr ⟨hpa, hpb⟩)
        · exact Or.inl (hpa.trans hpb.symm)
    · rw [if_neg hpb]
      constructor
      · intro hc
        exfalso
        apply hpb
        rcases hor with hor | hor
        · exact Or.inl (hc.symm.trans hor)
        · exact Or.inr (hc.symm.trans hor)
      · intro hc
        exfalso
        apply hpb
        rcases hc with hc | ⟨h1, h2⟩ | ⟨h1, h2⟩
        · rcases hpa with hpa | hpa
          · exact Or.inl (hc.symm.trans hpa)
          · exact Or.inr (hc.symm.trans hpa)
        · exact Or.inr h2
        · exact Or.inl h2
  · rw [if_neg hpa]
    by_cases hpb : ufFind uf b = ufFind uf x ∨ ufFind uf b = ufFind uf y
    · rw [if_pos hpb]
      constructor
      · intro hc
        exfalso
        apply hpa
        rcases hor with hor | hor
        · exact Or.inl (hc.trans hor)
        · exact Or.inr (hc.trans hor)
      · intro hc
        exfalso
        apply hpa
        rcases hc with hc | ⟨h1, h2⟩ | ⟨h1, h2⟩
        · rcases hpb with hpb | hpb
          · exact Or.inl (hc.trans hpb)
          · exact Or.inr (hc.trans hpb)
        · exact Or.inl h1
        · exact Or.inr h1
    · rw [if_neg hpb]
      constructor
      · exact fun hc => Or.inl hc
      · intro hc
        rcases hc with hc | ⟨h1, h2⟩ | ⟨h1, h2⟩
        · exact hc
        · exact absurd (Or.inl h1) hpa
        · exact absurd (Or.inr h1) hpa

/- After uniting `i, j` and appending a lane between their ids, the
partition still mirrors reachability. -/
theorem ufMatches_step {systems : List StarSystem} {lanes : List WarpLane}
    {uf : UnionFind} {i j : Nat} {l : WarpLane}
    (hnd : (systems.map StarSystem.id).Nodup)
    (h : UFWF systems.length uf) (hm : ufMatches systems lanes uf)
    (hi : i < systems.length) (hj : j < systems.length)
    (hfrom : l.fromId = idOf systems i) (hto : l.toId = idOf systems j) :
    ufMatches systems (lanes ++ [l]) (ufUnite uf i j).1 := by
  intro a b ha hb
  rw [ufUnite_sameRoot_iff h hi hj ha hb,
    reach_append_iff hnd hi hj hfrom hto a b]
  have e1 := hm a b ha hb
  have e2 := hm a i ha hi
  have e3 : (ufFind uf b = ufFind uf j) ↔ ReachIdx systems lanes j b :=
    (hm b j hb hj).trans ⟨reachIdx_symm, reachIdx_symm⟩
  have e4 := hm a j ha hj
  have e5 : (ufFind uf b = ufFind uf i) ↔ ReachIdx systems lanes i b :=
    (hm b i hb hi).trans ⟨reachIdx_symm, reachIdx_symm⟩
  rw [e1, e2, e3, e4, e5]

/- The freshly initialized union-find: everything is its own root. -/
theorem ufFind_identity (n x : Nat) :
    ufFind ⟨List.range n, List.replicate n 0⟩ x = x := by
  have hstep : ∀ z, ufStep (List.range n) z = z := by
    intro z
    unfold ufStep
    by_cases hz : z < n
    · rw [List.getD_eq_getElem _ _ (by rw [List.length_range]; exact hz)]
      exact List.getElem_range z _
    · rw [List.getD_eq_getElem?_getD, List.getElem?_eq_none]
      · rfl
      · rw [List.length_range]; omega
  show findAux (List.range n) (List.range n).length x = x
  generalize (List.range n).length = f
  induction f with
  | zero => rfl
  | succ f ih =>
    show (if ufStep (List.range n) x = x then x
      else findAux (List.range n) f (ufStep (List.range n) x)) = x
    rw [if_pos (hstep x)]

theorem UFWF_identity (n : Nat) :
    UFWF n ⟨List.range n, List.replicate n 0⟩ := by
  refine ⟨List.length_range n, List.length_replicate n 0, ?_, ?_⟩
  · intro x hx
    have : ufStep (List.range n) x = x := by
      show (List.range n).getD x x = x
      rw [List.getD_eq_getElem _ _ (by rw [List.length_range]; exact hx)]
      exact List.getElem_range x _
    rw [this]; exact hx
  · intro x hx hne
    exfalso
    apply hne
    show (List.range n).getD x x = x
    rw [List.getD_eq_getElem _ _ (by rw [List.length_range]; exact hx)]
    exact List.getElem_range x _

theorem reach_nil {systems : List StarSystem} {a b : Nat}
    (h : ReachIdx systems [] a b) : a = b := by
  induction h with
  | refl => rfl
  | tail _ e ih =>
    obtain ⟨-, -, l, hl, -⟩ := e
    exact absurd hl (List.not_mem_nil l)

theorem ufMatches_init (systems : List StarSystem) :
    ufMatches systems []
      ⟨List.range systems.length, List.replicate systems.length 0⟩ := by
  intro a b ha hb
  rw [ufFind_identity, ufFind_identity]
  constructor
  · rintro rfl
    exact Relation.ReflTransGen.refl
  · exact reach_nil

/- ---------------------------------------------------------------- -/
/- ensureNetworkConnectivity: the Kruskal-completion argument.       -/
/- ---------------------------------------------------------------- -/

theorem phaseA_inv (systems : List StarSystem)
    (hnd : (systems.map StarSystem.id).Nodup) :
    ∀ (lanes : List WarpLane) (uf : UnionFind) (processed : List WarpLane),
      UFWF systems.length uf → ufMatches systems processed uf →
      (∀ l ∈ lanes, l.fromId ∈ systems.map StarSystem.id ∧
        l.toId ∈ systems.map StarSystem.id ∧ l.fromId ≠ l.toId) →
      UFWF systems.length (lanes.foldl (uniteLane systems) uf) ∧
      ufMatches systems (processed ++ lanes)
        (lanes.foldl (uniteLane systems) uf) := by
  intro lanes
  induction lanes with
  | nil =>
    intro uf processed hwf hm _
    rw [List.append_nil]
    exact ⟨hwf, hm⟩
  | cons l rest ih =>
    intro uf processed hwf hm hl
    obtain ⟨hfm, htm, hftne⟩ := hl l (List.mem_cons_self l rest)
    obtain ⟨i, hif, hilt, hid⟩ := lastIdxOf_spec hfm
    obtain ⟨j, hjf, hjlt, hjd⟩ := lastIdxOf_spec htm
    have hstep : uniteLane systems uf l = (ufUnite uf i j).1 := by
      unfold uniteLane
      rw [hif, hjf]
    have hwf' : UFWF systems.length (uniteLane systems uf l) := by
      rw [hstep]
      exact (ufUnite_spec hwf hilt hjlt).1
    have hm' : ufMatches systems (processed ++ [l])
        (uniteLane systems uf l) := by
      rw [hstep]
      exact ufMatches_step hnd hwf hm hilt hjlt hid.symm hjd.symm
    have := ih (uniteLane systems uf l) (processed ++ [l]) hwf' hm'
      (fun l' hl' => hl l' (List.mem_cons_of_mem l hl'))
    rw [List.append_cons]
    exact this

theorem existingUF_spec (systems : List StarSystem) (st : GraphState)
    (hnd : (systems.map StarSystem.id).Nodup)
    (hep : EndpointsIn systems st.warpLanes)
    (hns : NoSelf st.warpLanes) :
    UFWF systems.length (existingUF systems st) ∧
    ufMatches systems st.warpLanes (existingUF systems st) := by
  have h := phaseA_inv systems hnd st.warpLanes
    ⟨List.range systems.length, List.replicate systems.length 0⟩ []
    (UFWF_identity systems.length) (ufMatches_init systems)
    (fun l hl => ⟨(hep l hl).1, (hep l hl).2, hns l hl⟩)
  rw [List.nil_append] at h
  exact h

/- The state invariant threaded through the greedy bridge loop. -/
def BInv (systems : List StarSystem) (acc : UnionFind × GraphState) : Prop :=
  UFWF systems.length acc.1 ∧ GoodState acc.2 ∧
  EndpointsIn systems acc.2.warpLanes ∧
  ufMatches systems acc.2.warpLanes acc.1

theorem bridgeStep_uf (systems : List StarSystem)
    (acc : UnionFind × GraphState) (e : ℚ × Nat × Nat) :
    (bridgeStep systems acc e).1 = (ufUnite acc.1 e.2.1 e.2.2).1 := by
  unfold bridgeStep
  by_cases hb : (ufUnite acc.1 e.2.1 e.2.2).2
  · rw [if_pos hb]
  · rw [if_neg hb]

theorem bridgeStep_inv {systems : List StarSystem}
    (hnd : (systems.map StarSystem.id).Nodup)
    {acc : UnionFind × GraphState} {e : ℚ × Nat × Nat}
    (hb : BInv systems acc) (hi : e.2.1 < systems.length)
    (hj : e.2.2 < systems.length) (hne : e.2.1 ≠ e.2.2) :
    BInv systems (bridgeStep systems acc e) := by
  obtain ⟨hwf, hgood, hep, hm⟩ := hb
  by_cases hu : (ufUnite acc.1 e.2.1 e.2.2).2
  · have hres : bridgeStep systems acc e =
        ((ufUnite acc.1 e.2.1 e.2.2).1,
         createWarpLane (systems.getD e.2.1 dummySystem)
           (systems.getD e.2.2 dummySystem) e.1 acc.2) := by
      unfold bridgeStep
      rw [if_pos hu]
    have hroots : ufFind acc.1 e.2.1 ≠ ufFind acc.1 e.2.2 :=
      (ufUnite_spec hwf hi hj).2.2.1 hu
    have hnr : ¬ ReachIdx systems acc.2.warpLanes e.2.1 e.2.2 :=
      fun hr => hroots ((hm _ _ hi hj).2 hr)
    have hnm : (systems.getD e.2.2 dummySystem).id ∉
        acc.2.connections (systems.getD e.2.1 dummySystem).id := by
      intro hmem
      apply hnr
      apply Relation.ReflTransGen.single
      exact ⟨hi, hj, (hgood.1 _ _).1 hmem⟩
    rw [hres, createWarpLane_add hnm]
    refine ⟨(ufUnite_spec hwf hi hj).1, ?_, ?_, ?_⟩
    · have := goodState_createWarpLane hgood
        (systems.getD e.2.1 dummySystem) (systems.getD e.2.2 dummySystem)
        e.1 (idOf_ne hnd hi hj hne)
      rw [createWarpLane_add hnm] at this
      exact this
    · intro l hl
      rcases List.mem_append.1 hl with hl | hl
      · exact hep l hl
      · rcases List.mem_singleton.1 hl with rfl
        exact ⟨idOf_mem hi, idOf_mem hj⟩
    · exact ufMatches_step hnd hwf hm hi hj rfl rfl
  · have hres : bridgeStep systems acc e =
        ((ufUnite acc.1 e.2.1 e.2.2).1, acc.2) := by
      unfold bridgeStep
      rw [if_neg hu]
    have hfalse : (ufUnite acc.1 e.2.1 e.2.2).2 = false := by
      cases hx : (ufUnite acc.1 e.2.1 e.2.2).2
      · rfl
      · exact absurd hx hu
    have heq := ((ufUnite_spec hwf hi hj).2.1 hfalse).1
    rw [hres, heq]
    exact ⟨hwf, hgood, hep, hm⟩

/- Persisting and newly merged classes after one bridge step. -/
theorem bridgeStep_sameRoot {systems : List StarSystem}
    {acc : UnionFind × GraphState} {e : ℚ × Nat × Nat}
    (hwf : UFWF systems.length acc.1) (hi : e.2.1 < systems.length)
    (hj : e.2.2 < systems.length) :
    (∀ a b, a < systems.length → b < systems.length →
      ufFind acc.1 a = ufFind acc.1 b →
      ufFind (bridgeStep systems acc e).1 a =
        ufFind (bridgeStep systems acc e).1 b) ∧
    ufFind (bridgeStep systems acc e).1 e.2.1 =
      ufFind (bridgeStep systems acc e).1 e.2.2 := by
  rw [bridgeStep_uf]
  constructor
  · intro a b ha hb hab
    exact (ufUnite_sameRoot_iff hwf hi hj ha hb).2 (Or.inl hab)
  · exact (ufUnite_sameRoot_iff hwf hi hj hi hj).2
      (Or.inr (Or.inl ⟨rfl, rfl⟩))

theorem foldB_spec (systems : List StarSystem)
    (hnd : (systems.map StarSystem.id).Nodup) :
    ∀ (L : List (ℚ × Nat × Nat)) (acc : UnionFind × GraphState),
      BInv systems acc →
      (∀ e ∈ L, e.2.1 < systems.length ∧ e.2.2 < systems.length ∧
        e.2.1 ≠ e.2.2) →
      BInv systems (L.foldl (bridgeStep systems) acc) ∧
      (∀ a b, a < systems.length → b < systems.length →
        ufFind acc.1 a = ufFind acc.1 b →
        ufFind (L.foldl (bridgeStep systems) acc).1 a =
          ufFind (L.foldl (bridgeStep systems) acc).1 b) ∧
      (∀ e ∈ L, ufFind (L.foldl (bridgeStep systems) acc).1 e.2.1 =
        ufFind (L.foldl (bridgeStep systems) acc).1 e.2.2) := by
  intro L
  induction L with
  | nil =>
    intro acc hb _
    refine ⟨hb, fun a b _ _ h => h, ?_⟩
    intro e he
    exact absurd he (List.not_mem_nil e)
  | cons e rest ih =>
    intro acc hb hL
    obtain ⟨hi, hj, hne⟩ := hL e (List.mem_cons_self e rest)
    have hb' := bridgeStep_inv hnd hb hi hj hne
    have hsr := bridgeStep_sameRoot (hb.1) hi hj
    obtain ⟨hbF, hpersist, hmerged⟩ := ih (bridgeStep systems acc e) hb'
      (fun e' he' => hL e' (List.mem_cons_of_mem e he'))
    refine ⟨hbF, ?_, ?_⟩
    · intro a b ha hbb hab
      exact hpersist a b ha hbb (hsr.1 a b ha hbb hab)
    · intro e' he'
      rcases List.mem_cons.1 he' with rfl | he'
      · exact hpersist e'.2.1 e'.2.2 hi hj hsr.2
      · exact hmerged e' he'

theorem bridgeCandidates_mem {systems : List StarSystem}
    {uf1 : UnionFind} {e : ℚ × Nat × Nat} :
    e ∈ bridgeCandidates systems uf1 ↔
      ∃ i j, i < j ∧ j < systems.length ∧ ufFind uf1 i ≠ ufFind uf1 j ∧
        e = (dist2 (systems.getD i dummySystem).pos
              (systems.getD j dummySystem).pos, i, j) := by
  unfold bridgeCandidates
  rw [List.mem_filterMap]
  constructor
  · rintro ⟨⟨i, j⟩, hp, he⟩
    rcases pairsUnder_mem.1 hp with ⟨hij, hjn⟩
    dsimp only at he
    by_cases hc : ufFind uf1 i ≠ ufFind uf1 j
    · rw [if_pos hc] at he
      exact ⟨i, j, hij, hjn, hc, (Option.some.inj he).symm⟩
    · rw [if_neg hc] at he
      exact absurd he (by simp)
  · rintro ⟨i, j, hij, hjn, hc, rfl⟩
    refine ⟨(i, j), pairsUnder_mem.2 ⟨hij, hjn⟩, ?_⟩
    rw [if_pos hc]

/- Master theorem for the Connectivity Guarantor's global pass: on any
state whose lanes are pair-consistent with the side map and whose endpoint
ids are ids of the given (duplicate-free) systems, the output state is
still well-formed and its lane graph connects every pair of systems. -/
theorem ensureNetworkConnectivity_spec (systems : List StarSystem)
    (st : GraphState) (hnd : (systems.map StarSystem.id).Nodup)
    (hgood : GoodState st) (hep : EndpointsIn systems st.warpLanes) :
    GoodState (ensureNetworkConnectivity systems st) ∧
    EndpointsIn systems (ensureNetworkConnectivity systems st).warpLanes ∧
    ∀ i j, i < systems.length → j < systems.length →
      ReachIdx systems (ensureNetworkConnectivity systems st).warpLanes
        i j := by
  unfold ensureNetworkConnectivity
  by_cases hn : systems.length < 2
  · rw [if_pos hn]
    refine ⟨hgood, hep, ?_⟩
    intro i j hi hj
    have hij : i = j := by omega
    subst hij
    exact Relation.ReflTransGen.refl
  · rw [if_neg hn]
    obtain ⟨hwf1, hm1⟩ := existingUF_spec systems st hnd hep hgood.2.1
    have hbounds : ∀ e ∈ (bridgeCandidates systems
        (existingUF systems st)).mergeSort bridgeLE,
        e.2.1 < systems.length ∧ e.2.2 < systems.length ∧
        e.2.1 ≠ e.2.2 := by
      intro e he
      rw [(List.mergeSort_perm _ _).mem_iff] at he
      obtain ⟨i, j, hij, hjn, -, rfl⟩ := bridgeCandidates_mem.1 he
      exact ⟨Nat.lt_trans hij hjn, hjn, Nat.ne_of_lt hij⟩
    obtain ⟨hbF, hpersist, hmerged⟩ := foldB_spec systems hnd _
      (existingUF systems st, st) ⟨hwf1, hgood, hep, hm1⟩ hbounds
    refine ⟨hbF.2.1, hbF.2.2.1, ?_⟩
    intro i j hi hj
    by_cases hsame : ufFind (existingUF systems st) i =
        ufFind (existingUF systems st) j
    · have := hpersist i j hi hj hsame
      exact (hbF.2.2.2 i j hi hj).1 this
    · have hij : i ≠ j := fun h => hsame (by rw [h])
      rcases Nat.lt_or_ge i j with hlt | hge
      · have hc : (dist2 (systems.getD i dummySystem).pos
            (systems.getD j dummySystem).pos, i, j) ∈
            (bridgeCandidates systems (existingUF systems st)).mergeSort
              bridgeLE := by
          rw [(List.mergeSort_perm _ _).mem_iff]
          exact bridgeCandidates_mem.2 ⟨i, j, hlt, hj, hsame, rfl⟩
        have := hmerged _ hc
        exact (hbF.2.2.2 i j hi hj).1 this
      · have hlt : j < i := by omega
        have hsame' : ufFind (existingUF systems st) j ≠
            ufFind (existingUF systems st) i := fun h => hsame h.symm
        have hc : (dist2 (systems.getD j dummySystem).pos
            (systems.getD i dummySystem).pos, j, i) ∈
            (bridgeCandidates systems (existingUF systems st)).mergeSort
              bridgeLE := by
          rw [(List.mergeSort_perm _ _).mem_iff]
          exact bridgeCandidates_mem.2 ⟨j, i, hlt, hi, hsame', rfl⟩
        have := hmerged _ hc
        exact reachIdx_symm ((hbF.2.2.2 j i hj hi).1 this)

/- ---------------------------------------------------------------- -/
/- generateStarSystems: id characterization (no validation path)     -/
/- ---------------------------------------------------------------- -/

theorem placeFixedSystem_id (f : FixedSystem) (rng : Rng) :
    (placeFixedSystem f rng).1.id = f.id := by
  unfold placeFixedSystem
  by_cases h : f.hasFixedPosition
  · rw [if_pos h]
  · rw [if_neg h]

theorem placeFixedStep_eq (acc : List StarSystem × Rng) (f : FixedSystem) :
    placeFixedStep acc f =
      (acc.1 ++ [(placeFixedSystem f acc.2).1],
       (placeFixedSystem f acc.2).2) := rfl

theorem fixedFold_ids :
    ∀ (fs : List FixedSystem) (acc : List StarSystem × Rng),
      ((fs.foldl placeFixedStep acc).1).map StarSystem.id =
      acc.1.map StarSystem.id ++ fs.map FixedSystem.id := by
  intro fs
  induction fs with
  | nil => intro acc; rw [List.foldl_nil, List.map_nil, List.append_nil]
  | cons f rest ih =>
    intro acc
    rw [List.foldl_cons, ih, placeFixedStep_eq]
    rw [List.map_append, List.map_cons]
    simp [placeFixedSystem_id, List.append_assoc]

theorem generatedStep_ids (acc : (List StarSystem × Bool) × Rng) (i : Nat) :
    (generatedStep acc i).1.1.map StarSystem.id =
      acc.1.1.map StarSystem.id ++ ["system-" ++ toString (i + 1)] := by
  unfold generatedStep
  rw [List.map_append]
  rfl

theorem genFold_ids :
    ∀ (l : List Nat) (acc : (List StarSystem × Bool) × Rng),
      ((l.foldl generatedStep acc).1.1).map StarSystem.id =
      acc.1.1.map StarSystem.id ++
        l.map (fun i => "system-" ++ toString (i + 1)) := by
  intro l
  induction l with
  | nil => intro acc; rw [List.foldl_nil, List.map_nil, List.append_nil]
  | cons i rest ih =>
    intro acc
    rw [List.foldl_cons, ih, generatedStep_ids]
    rw [List.map_cons, List.append_assoc]
    rfl

/- The systems returned by `generateStarSystems`, by id: every fixed
system in order, then `max 0 (starSystemCount - #fixed)` generated ones.
There is no validation and no failure path: the result is total for every
configuration, including `#fixed > starSystemCount`. -/
theorem generateStarSystems_ids (cfg : GalaxyConfig) (rng : Rng) :
    ((generateStarSystems cfg rng).1.map StarSystem.id) =
      cfg.fixedSystems.map FixedSystem.id ++
      (List.range (cfg.starSystemCount -
        (cfg.fixedSystems.length : Int)).toNat).map
        (fun i => "system-" ++ toString (i + 1)) := by
  show ((generateStarSystemsCore cfg rng).1.1.map StarSystem.id) = _
  unfold generateStarSystemsCore
  rw [genFold_ids]
  have h := fixedFold_ids cfg.fixedSystems ([], rng)
  rw [List.map_nil, List.nil_append] at h
  rw [h]

theorem generateStarSystems_length (cfg : GalaxyConfig) (rng : Rng) :
    (generateStarSystems cfg rng).1.length =
      cfg.fixedSystems.length +
      (cfg.starSystemCount - (cfg.fixedSystems.length : Int)).toNat := by
  have h := congrArg List.length (generateStarSystems_ids cfg rng)
  rw [List.length_map, List.length_append, List.length_map,
    List.length_map, List.length_range] at h
  exact h

/- ---------------------------------------------------------------- -/
/- generateVoronoiSites in a generateGalaxy run: the validity check   -/
/- consults the still-empty member vector, so every first draw is     -/
/- accepted and no slot is ever dropped.                              -/
/- ---------------------------------------------------------------- -/

theorem isValidVoronoiPosition_nil (pos : Point) (minDistance : ℚ) :
    isValidVoronoiPosition [] pos minDistance = true := rfl

theorem voronoiSample_nil (minDistance : ℚ) (fuel : Nat) (rng : Rng) :
    voronoiSample [] minDistance (fuel + 1) rng =
      (some rng.drawPos.1, rng.drawPos.2) := rfl

/- With the member vector empty - as it is during a `generateGalaxy` run -
every slot accepts its very first draw. -/
theorem voronoiSiteStep_nil (acc : List VoronoiSite × Rng) :
    voronoiSiteStep [] acc =
      (acc.1 ++ [⟨acc.2.drawPos.1.1, acc.2.drawPos.1.2, [], "", false⟩],
       acc.2.drawPos.2) := by
  unfold voronoiSiteStep
  rw [show (499 : Nat) = 498 + 1 from rfl, voronoiSample_nil]

theorem generateVoronoiSites_nil_length (numSites : Int) (rng : Rng) :
    (generateVoronoiSites [] numSites rng).1.length = numSites.toNat := by
  unfold generateVoronoiSites
  have main : ∀ (l : List Nat) (acc : List VoronoiSite × Rng),
      ((l.foldl (fun acc _ => voronoiSiteStep [] acc) acc).1).length =
      acc.1.length + l.length := by
    intro l
    induction l with
    | nil => intro acc; rfl
    | cons x xs ih =>
      intro acc
      rw [List.foldl_cons, ih, voronoiSiteStep_nil]
      rw [List.length_append, List.length_singleton, List.length_cons]
      omega
  rw [main, List.length_range]
  simp

/- ---------------------------------------------------------------- -/
/- The bridge comparison is a total preorder, so the processed        -/
/- candidate list is sorted by (distance, i, j).                      -/
/- ---------------------------------------------------------------- -/

theorem bridgeLE_trans (a b c : ℚ × Nat × Nat) (h1 : bridgeLE a b = true)
    (h2 : bridgeLE b c = true) : bridgeLE a c = true := by
  simp only [bridgeLE, Bool.or_eq_true, Bool.and_eq_true,
    decide_eq_true_eq] at h1 h2 ⊢
  rcases h1 with h1 | ⟨he1, h1⟩
  · rcases h2 with h2 | ⟨he2, h2⟩
    · exact Or.inl (lt_trans h1 h2)
    · refine Or.inl ?_
      rw [← he2]
      exact h1
  · rcases h2 with h2 | ⟨he2, h2⟩
    · refine Or.inl ?_
      rw [he1]
      exact h2
    · refine Or.inr ⟨he1.trans he2, ?_⟩
      rcases h1 with h1 | ⟨hi1, h1⟩
      · rcases h2 with h2 | ⟨hi2, h2⟩
        · exact Or.inl (lt_trans h1 h2)
        · refine Or.inl ?_
          rw [← hi2]
          exact h1
      · rcases h2 with h2 | ⟨hi2, h2⟩
        · refine Or.inl ?_
          rw [hi1]
          exact h2
        · exact Or.inr ⟨hi1.trans hi2, le_trans h1 h2⟩

theorem bridgeLE_total (a b : ℚ × Nat × Nat) :
    (bridgeLE a b || bridgeLE b a) = true := by
  simp only [bridgeLE, Bool.or_eq_true, Bool.and_eq_true,
    decide_eq_true_eq]
  rcases lt_trichotomy a.1 b.1 with h | h | h
  · exact Or.inl (Or.inl h)
  · rcases lt_trichotomy a.2.1 b.2.1 with h' | h' | h'
    · exact Or.inl (Or.inr ⟨h, Or.inl h'⟩)
    · rcases le_total a.2.2 b.2.2 with h'' | h''
      · exact Or.inl (Or.inr ⟨h, Or.inr ⟨h', h''⟩⟩)
      · exact Or.inr (Or.inr ⟨h.symm, Or.inr ⟨h'.symm, h''⟩⟩)
    · exact Or.inr (Or.inr ⟨h.symm, Or.inl h'⟩)
  · exact Or.inr (Or.inl h)

theorem bridge_mergeSort_sorted (l : List (ℚ × Nat × Nat)) :
    List.Pairwise (fun a b => bridgeLE a b = true)
      (l.mergeSort bridgeLE) :=
  List.sorted_mergeSort bridgeLE_trans bridgeLE_total l

/- ---------------------------------------------------------------- -/
/- addRedundantConnections: bounded additions under the distance cap -/
/- ---------------------------------------------------------------- -/

theorem redundantInnerStep_spec (cfg : GalaxyConfig)
    (systems : List StarSystem) (vIdx maxR : Nat) (acc : GraphState × Nat)
    (e : ℚ × Nat) :
    ∃ ext, (redundantInnerStep cfg systems vIdx maxR acc e).1.warpLanes =
        acc.1.warpLanes ++ ext ∧
      (∀ l ∈ ext, distLt l.distance (cfg.radius * (2/5)) = true) ∧
      acc.2 + ext.length ≤ (redundantInnerStep cfg systems vIdx maxR acc e).2 ∧
      (acc.2 ≤ maxR → (redundantInnerStep cfg systems vIdx maxR acc e).2 ≤ maxR) ∧
      ext.length ≤ 1 := by
  unfold redundantInnerStep
  by_cases hguard : acc.2 ≥ maxR
  · rw [if_pos hguard]
    exact ⟨[], (List.append_nil _).symm, fun l hl => absurd hl
      (List.not_mem_nil l),
      by simp only [List.length_nil]; omega, fun h => h,
      by simp only [List.length_nil]; omega⟩
  · rw [if_neg hguard]
    by_cases hdist : distLt
        (dist2 (systems.getD vIdx dummySystem).pos
          (systems.getD e.2 dummySystem).pos) (cfg.radius * (2/5)) = true
    · rw [if_pos hdist]
      rcases createWarpLane_lanes (systems.getD vIdx dummySystem)
        (systems.getD e.2 dummySystem)
        (dist2 (systems.getD vIdx dummySystem).pos
          (systems.getD e.2 dummySystem).pos) acc.1 with h | h
      · exact ⟨[], by rw [h, List.append_nil], fun l hl => absurd hl
          (List.not_mem_nil l),
          by simp only [List.length_nil]; omega,
          by omega, by simp only [List.length_nil]; omega⟩
      · refine ⟨[madeLane (systems.getD vIdx dummySystem)
          (systems.getD e.2 dummySystem)
          (dist2 (systems.getD vIdx dummySystem).pos
            (systems.getD e.2 dummySystem).pos)], h, ?_,
          by simp only [List.length_singleton]; omega, by omega,
          by simp only [List.length_singleton]; omega⟩
        intro l hl
        rcases List.mem_singleton.1 hl with rfl
        exact hdist
    · rw [if_neg hdist]
      exact ⟨[], (List.append_nil _).symm, fun l hl => absurd hl
        (List.not_mem_nil l),
        by simp only [List.length_nil]; omega, fun h => h,
        by simp only [List.length_nil]; omega⟩

theorem redundantInner_fold (cfg : GalaxyConfig)
    (systems : List StarSystem) (vIdx maxR : Nat) :
    ∀ (L : List (ℚ × Nat)) (acc : GraphState × Nat),
      ∃ ext, (L.foldl (redundantInnerStep cfg systems vIdx maxR)
          acc).1.warpLanes = acc.1.warpLanes ++ ext ∧
        (∀ l ∈ ext, distLt l.distance (cfg.radius * (2/5)) = true) ∧
        acc.2 + ext.length ≤
          (L.foldl (redundantInnerStep cfg systems vIdx maxR) acc).2 ∧
        (acc.2 ≤ maxR →
          (L.foldl (redundantInnerStep cfg systems vIdx maxR) acc).2 ≤
            maxR) ∧
        ext.length ≤ L.length := by
  intro L
  induction L with
  | nil =>
    intro acc
    exact ⟨[], (List.append_nil _).symm, fun l hl => absurd hl
      (List.not_mem_nil l),
      by simp only [List.foldl_nil, List.length_nil]; omega, fun h => h,
      by simp only [List.length_nil]; omega⟩
  | cons e rest ih =>
    intro acc
    obtain ⟨ext1, he1, hd1, hc1, hm1, hl1⟩ :=
      redundantInnerStep_spec cfg systems vIdx maxR acc e
    obtain ⟨ext2, he2, hd2, hc2, hm2, hl2⟩ :=
      ih (redundantInnerStep cfg systems vIdx maxR acc e)
    refine ⟨ext1 ++ ext2, ?_, ?_, ?_, ?_, ?_⟩
    · rw [List.foldl_cons, he2, he1, List.append_assoc]
    · intro l hl
      rcases List.mem_append.1 hl with hl | hl
      · exact hd1 l hl
      · exact hd2 l hl
    · rw [List.foldl_cons, List.length_append]
      omega
    · intro h
      rw [List.foldl_cons]
      exact hm2 (hm1 h)
    · rw [List.length_append, List.length_cons]
      omega

theorem redundantVulnStep_spec (cfg : GalaxyConfig)
    (systems : List StarSystem) (maxR : Nat) (acc : GraphState × Nat)
    (vIdx : Nat) :
    ∃ ext, (redundantVulnStep cfg systems maxR acc vIdx).1.warpLanes =
        acc.1.warpLanes ++ ext ∧
      (∀ l ∈ ext, distLt l.distance (cfg.radius * (2/5)) = true) ∧
      acc.2 + ext.length ≤ (redundantVulnStep cfg systems maxR acc vIdx).2 ∧
      (acc.2 ≤ maxR →
        (redundantVulnStep cfg systems maxR acc vIdx).2 ≤ maxR) ∧
      ext.length ≤
        (if (acc.1.connections (systems.getD vIdx dummySystem).id).length = 1
         then 2 else 1) := by
  unfold redundantVulnStep
  by_cases hguard : acc.2 ≥ maxR
  · rw [if_pos hguard]
    exact ⟨[], (List.append_nil _).symm, fun l hl => absurd hl
      (List.not_mem_nil l),
      by simp only [List.length_nil]; omega, fun h => h,
      by simp only [List.length_nil]; exact Nat.zero_le _⟩
  · rw [if_neg hguard]
    obtain ⟨ext, he, hd, hc, hm, hl⟩ := redundantInner_fold cfg systems
      vIdx maxR ((redundantTargets systems acc.1 vIdx).take
        (if (acc.1.connections
          (systems.getD vIdx dummySystem).id).length = 1 then 2 else 1)) acc
    refine ⟨ext, he, hd, hc, hm, le_trans hl ?_⟩
    exact List.length_take_le _ _

theorem redundantOuter_fold (cfg : GalaxyConfig)
    (systems : List StarSystem) (maxR : Nat) :
    ∀ (V : List Nat) (acc : GraphState × Nat),
      ∃ ext, (V.foldl (redundantVulnStep cfg systems maxR)
          acc).1.warpLanes = acc.1.warpLanes ++ ext ∧
        (∀ l ∈ ext, distLt l.distance (cfg.radius * (2/5)) = true) ∧
        acc.2 + ext.length ≤
          (V.foldl (redundantVulnStep cfg systems maxR) acc).2 ∧
        (acc.2 ≤ maxR →
          (V.foldl (redundantVulnStep cfg systems maxR) acc).2 ≤ maxR) := by
  intro V
  induction V with
  | nil =>
    intro acc
    exact ⟨[], (List.append_nil _).symm, fun l hl => absurd hl
      (List.not_mem_nil l),
      by simp only [List.foldl_nil, List.length_nil]; omega, fun h => h⟩
  | cons v rest ih =>
    intro acc
    obtain ⟨ext1, he1, hd1, hc1, hm1, -⟩ :=
      redundantVulnStep_spec cfg systems maxR acc v
    obtain ⟨ext2, he2, hd2, hc2, hm2⟩ :=
      ih (redundantVulnStep cfg systems maxR acc v)
    refine ⟨ext1 ++ ext2, ?_, ?_, ?_, ?_⟩
    · rw [List.foldl_cons, he2, he1, List.append_assoc]
    · intro l hl
      rcases List.mem_append.1 hl with hl | hl
      · exact hd1 l hl
      · exact hd2 l hl
    · rw [List.foldl_cons, List.length_append]
      omega
    · intro h
      rw [List.foldl_cons]
      exact hm2 (hm1 h)

/- The Resilience Augmenter appends at most `min(systemCount/4, 40)`
lanes, each gated by `distance < 0.4 * radius`. -/
theorem addRedundantConnections_bound (cfg : GalaxyConfig)
    (systems : List StarSystem) (st : GraphState) :
    ∃ ext, (addRedundantConnections cfg systems st).warpLanes =
        st.warpLanes ++ ext ∧
      ext.length ≤ min (systems.length / 4) 40 ∧
      ∀ l ∈ ext, distLt l.distance (cfg.radius * (2/5)) = true := by
  unfold addRedundantConnections
  by_cases hn : systems.length < 3
  · rw [if_pos hn]
    exact ⟨[], (List.append_nil _).symm,
      by simp only [List.length_nil]; exact Nat.zero_le _,
      fun l hl => absurd hl (List.not_mem_nil l)⟩
  · rw [if_neg hn]
    obtain ⟨ext, he, hd, hc, hm⟩ := redundantOuter_fold cfg systems
      (min (systems.length / 4) 40) (vulnerableIdxs cfg systems st) (st, 0)
    refine ⟨ext, he, ?_, hd⟩
    have := hm (by omega)
    omega

/- ---------------------------------------------------------------- -/
/- computeVoronoiNeighbors: the symmetrization argument              -/
/- ---------------------------------------------------------------- -/

theorem getD_set_gen {α : Type} {l : List α} {a : Nat} (b : α)
    (ha : a < l.length) (z : Nat) (d : α) :
    (l.set a b).getD z d = if z = a then b else l.getD z d := by
  rw [List.getD_eq_getElem?_getD, List.getElem?_set,
    List.getD_eq_getElem?_getD]
  by_cases hz : z = a
  · subst hz
    rw [if_pos rfl, if_pos rfl, if_pos ha]
    rfl
  · rw [if_neg hz, if_neg (fun hh => hz hh.symm)]

/- Neighbor lists hold in-range, non-self indices. -/
def NbOK (n : Nat) (sites : List VoronoiSite) : Prop :=
  sites.length = n ∧
  ∀ i j, j ∈ (sites.getD i dummySite).neighbors → j < n ∧ j ≠ i

/- Site `i`'s neighbor relation is symmetric in `sites`. -/
def SymAt (sites : List VoronoiSite) (i : Nat) : Prop :=
  ∀ j ∈ (sites.getD i dummySite).neighbors,
    i ∈ (sites.getD j dummySite).neighbors

theorem neighborScanStep_nbOK {cfg : GalaxyConfig} {n : Nat}
    {sites : List VoronoiSite} {i : Nat} (h : NbOK n sites) (hi : i < n) :
    NbOK n (neighborScanStep cfg n sites i) := by
  obtain ⟨hlen, hok⟩ := h
  have hil : i < sites.length := by rw [hlen]; exact hi
  constructor
  · rw [neighborScanStep]
    rw [List.length_set]
    exact hlen
  · intro k j hj
    rw [neighborScanStep] at hj
    rw [getD_set_gen _ hil] at hj
    by_cases hk : k = i
    · rw [if_pos hk] at hj
      subst hk
      rcases List.mem_map.1 hj with ⟨e, he, rfl⟩
      rcases List.mem_filter.1 he with ⟨he', -⟩
      have he'' := (List.mergeSort_perm _ distIdxLE).mem_iff.1
        (List.mem_of_mem_take he')
      rcases List.mem_map.1 he'' with ⟨j', hj', rfl⟩
      rcases List.mem_filter.1 hj' with ⟨hjr, hjne⟩
      exact ⟨List.mem_range.1 hjr, of_decide_eq_true hjne⟩
    · rw [if_neg hk] at hj
      exact hok k j hj

theorem stage1_nbOK (cfg : GalaxyConfig) (n : Nat)
    (sites0 : List VoronoiSite) (h : NbOK n sites0) :
    NbOK n ((List.range n).foldl (neighborScanStep cfg n) sites0) := by
  refine foldl_preserve (NbOK n) _ _ _ h ?_
  intro sites i hi hOK
  exact neighborScanStep_nbOK hOK (List.mem_range.1 hi)

theorem symInnerStep_spec {n : Nat} {sites : List VoronoiSite}
    {i : Nat} (h : NbOK n sites) (hi : i < n) (neighborIdx : Nat)
    (hjn : neighborIdx < n) (hine : neighborIdx ≠ i) :
    NbOK n (symInnerStep i sites neighborIdx) ∧
    (∀ k, (sites.getD k dummySite).neighbors ⊆
      ((symInnerStep i sites neighborIdx).getD k dummySite).neighbors) ∧
    i ∈ ((symInnerStep i sites neighborIdx).getD neighborIdx
      dummySite).neighbors ∧
    (∀ k, k ≠ neighborIdx →
      (symInnerStep i sites neighborIdx).getD k dummySite =
        sites.getD k dummySite) ∧
    (∀ k, ((symInnerStep i sites neighborIdx).getD k dummySite).neighbors ⊆
      (sites.getD k dummySite).neighbors ++ [i]) := by
  obtain ⟨hlen, hok⟩ := h
  have hjl : neighborIdx < sites.length := by rw [hlen]; exact hjn
  unfold symInnerStep
  by_cases hmem : i ∈ (sites.getD neighborIdx dummySite).neighbors
  · rw [if_pos hmem]
    refine ⟨⟨hlen, hok⟩, fun k => List.Subset.refl _, hmem,
      fun k _ => rfl, fun k => ?_⟩
    exact List.subset_append_of_subset_left _ (List.Subset.refl _)
  · rw [if_neg hmem]
    have hgd : ∀ k, ((sites.set neighborIdx
        (siteWithNeighbors (sites.getD neighborIdx dummySite)
          ((sites.getD neighborIdx dummySite).neighbors ++ [i]))).getD k
        dummySite) =
        if k = neighborIdx then
          siteWithNeighbors (sites.getD neighborIdx dummySite)
            ((sites.getD neighborIdx dummySite).neighbors ++ [i])
        else sites.getD k dummySite := by
      intro k
      exact getD_set_gen _ hjl k _
    refine ⟨⟨by rw [List.length_set]; exact hlen, ?_⟩, ?_, ?_, ?_, ?_⟩
    · intro k j hj
      rw [hgd] at hj
      by_cases hk : k = neighborIdx
      · rw [if_pos hk] at hj
        subst hk
        rcases List.mem_append.1 hj with hj | hj
        · exact hok k j hj
        · rcases List.mem_singleton.1 hj with rfl
          exact ⟨hi, fun hh => hine hh.symm⟩
      · rw [if_neg hk] at hj
        exact hok k j hj
    · intro k
      rw [hgd]
      by_cases hk : k = neighborIdx
      · rw [if_pos hk]
        subst hk
        exact List.subset_append_of_subset_left _ (List.Subset.refl _)
      · rw [if_neg hk]
        exact List.Subset.refl _
    · rw [hgd, if_pos rfl]
      exact List.mem_append.2 (Or.inr (List.mem_singleton.2 rfl))
    · intro k hk
      rw [hgd, if_neg hk]
    · intro k
      rw [hgd]
      by_cases hk : k = neighborIdx
      · rw [if_pos hk]
        subst hk
        exact List.Subset.refl _
      · rw [if_neg hk]
        exact List.subset_append_of_subset_left _ (List.Subset.refl _)

theorem symInner_fold {n : Nat} {i : Nat} (hi : i < n) :
    ∀ (js : List Nat) (sites : List VoronoiSite), NbOK n sites →
      (∀ j ∈ js, j ∈ (sites.getD i dummySite).neighbors) →
      NbOK n (js.foldl (symInnerStep i) sites) ∧
      (∀ k, (sites.getD k dummySite).neighbors ⊆
        ((js.foldl (symInnerStep i) sites).getD k dummySite).neighbors) ∧
      (∀ j ∈ js, i ∈
        ((js.foldl (symInnerStep i) sites).getD j dummySite).neighbors) ∧
      ((js.foldl (symInnerStep i) sites).getD i dummySite =
        sites.getD i dummySite) ∧
      (∀ k, SymAt sites k → SymAt (js.foldl (symInnerStep i) sites) k) := by
  intro js
  induction js with
  | nil =>
    intro sites h _
    exact ⟨h, fun k => List.Subset.refl _,
      fun j hj => absurd hj (List.not_mem_nil j), rfl, fun k hs => hs⟩
  | cons j0 rest ih =>
    intro sites h hjs
    have hj0 : j0 ∈ (sites.getD i dummySite).neighbors :=
      hjs j0 (List.mem_cons_self j0 rest)
    obtain ⟨hj0n, hj0i⟩ := h.2 i j0 hj0
    obtain ⟨hOK', hmono', hiadd, hsame', hkeep⟩ :=
      symInnerStep_spec h hi j0 hj0n hj0i
    have hjs' : ∀ j ∈ rest, j ∈
        ((symInnerStep i sites j0).getD i dummySite).neighbors := by
      intro j hj
      exact hmono' i (hjs j (List.mem_cons_of_mem j0 hj))
    obtain ⟨hOKF, hmonoF, hallF, hsameF, hsymF⟩ :=
      ih (symInnerStep i sites j0) hOK' hjs'
    refine ⟨hOKF, ?_, ?_, ?_, ?_⟩
    · intro k
      exact List.Subset.trans (hmono' k) (hmonoF k)
    · intro j hj
      rcases List.mem_cons.1 hj with rfl | hj
      · exact hmonoF j hiadd
      · exact hallF j hj
    · rw [List.foldl_cons, hsameF, hsame' i (fun hh => hj0i hh.symm)]
    · intro k hs
      apply hsymF
      -- SymAt is preserved by one inner step
      intro j hj
      rcases List.mem_append.1 (hkeep k hj) with hjk | hjk
      · exact hmono' j (hs j hjk)
      · have hji : j = i := List.mem_singleton.1 hjk
        subst hji
        -- the only new entry is `j` itself, added at index j0 ∈ nb(j)
        by_cases hkj0 : k = j0
        · rw [hkj0]
          exact hmono' j hj0
        · rw [hsame' k hkj0] at hj
          exact hmono' j (hs j hj)
  -- end symInner_fold

theorem symOuterStep_spec {n : Nat} {sites : List VoronoiSite} {i : Nat}
    (h : NbOK n sites) (hi : i < n) :
    NbOK n (symOuterStep sites i) ∧
    (∀ k, (sites.getD k dummySite).neighbors ⊆
      ((symOuterStep sites i).getD k dummySite).neighbors) ∧
    SymAt (symOuterStep sites i) i ∧
    (∀ k, SymAt sites k → SymAt (symOuterStep sites i) k) := by
  obtain ⟨hOKF, hmonoF, hallF, hsameF, hsymF⟩ :=
    symInner_fold hi ((sites.getD i dummySite).neighbors) sites h
      (fun j hj => hj)
  refine ⟨hOKF, hmonoF, ?_, hsymF⟩
  intro j hj
  unfold symOuterStep at hj ⊢
  rw [hsameF] at hj
  exact hallF j hj

theorem symStage_spec (n : Nat) :
    ∀ (L : List Nat) (sites : List VoronoiSite), NbOK n sites →
      (∀ i ∈ L, i < n) →
      NbOK n (L.foldl symOuterStep sites) ∧
      (∀ i ∈ L, SymAt (L.foldl symOuterStep sites) i) ∧
      (∀ k, SymAt sites k → SymAt (L.foldl symOuterStep sites) k) := by
  intro L
  induction L with
  | nil =>
    intro sites h _
    exact ⟨h, fun i hi => absurd hi (List.not_mem_nil i), fun k hs => hs⟩
  | cons i0 rest ih =>
    intro sites h hL
    obtain ⟨hOK', hmono', hsym0, hkeep'⟩ :=
      symOuterStep_spec h (hL i0 (List.mem_cons_self i0 rest))
    obtain ⟨hOKF, hallF, hkeepF⟩ := ih (symOuterStep sites i0) hOK'
      (fun i hi => hL i (List.mem_cons_of_mem i0 hi))
    refine ⟨hOKF, ?_, ?_⟩
    · intro i hi
      rcases List.mem_cons.1 hi with rfl | hi
      · exact hkeepF i hsym0
      · exact hallF i hi
    · intro k hs
      exact hkeepF k (hkeep' k hs)

theorem sites0_nbOK (sitesIn : List VoronoiSite) :
    NbOK (sitesIn.map (fun s => siteWithNeighbors s [])).length
      (sitesIn.map (fun s => siteWithNeighbors s [])) := by
  refine ⟨rfl, ?_⟩
  intro i j hj
  exfalso
  by_cases hi : i < (sitesIn.map (fun s => siteWithNeighbors s [])).length
  · rw [List.getD_eq_getElem _ _ hi, List.getElem_map] at hj
    exact List.not_mem_nil j hj
  · rw [List.getD_eq_getElem?_getD, List.getElem?_eq_none (by omega)] at hj
    exact List.not_mem_nil j hj

/- The two folded passes of `computeVoronoiNeighbors`, written out. -/
theorem computeVoronoiNeighbors_eq (cfg : GalaxyConfig)
    (sitesIn : List VoronoiSite) :
    computeVoronoiNeighbors cfg sitesIn =
      (List.range (sitesIn.map
        (fun s => siteWithNeighbors s [])).length).foldl symOuterStep
        ((List.range (sitesIn.map
          (fun s => siteWithNeighbors s [])).length).foldl
          (neighborScanStep cfg
            (sitesIn.map (fun s => siteWithNeighbors s [])).length)
          (sitesIn.map (fun s => siteWithNeighbors s []))) := rfl

/- Master symmetry theorem for the neighbor-graph builder. -/
theorem computeVoronoiNeighbors_symm (cfg : GalaxyConfig)
    (sitesIn : List VoronoiSite) :
    ∀ i j, j ∈ ((computeVoronoiNeighbors cfg sitesIn).getD i
        dummySite).neighbors →
      j < (computeVoronoiNeighbors cfg sitesIn).length ∧
      i ∈ ((computeVoronoiNeighbors cfg sitesIn).getD j
        dummySite).neighbors := by
  intro i j hj
  rw [computeVoronoiNeighbors_eq] at hj ⊢
  have h0 := sites0_nbOK sitesIn
  have h1 := stage1_nbOK cfg
    (sitesIn.map (fun s => siteWithNeighbors s [])).length
    (sitesIn.map (fun s => siteWithNeighbors s [])) h0
  obtain ⟨hOKF, hallF, -⟩ := symStage_spec
    (sitesIn.map (fun s => siteWithNeighbors s [])).length
    (List.range (sitesIn.map (fun s => siteWithNeighbors s [])).length) _
    h1 (fun i hi => List.mem_range.1 hi)
  have hji := hOKF.2 i j hj
  refine ⟨by rw [hOKF.1]; exact hji.1, ?_⟩
  by_cases hi : i < (sitesIn.map (fun s => siteWithNeighbors s [])).length
  · exact hallF i (List.mem_range.2 hi) j hj
  · exfalso
    have hempty : (((List.range (sitesIn.map
        (fun s => siteWithNeighbors s [])).length).foldl symOuterStep
        ((List.range (sitesIn.map
          (fun s => siteWithNeighbors s [])).length).foldl
          (neighborScanStep cfg
            (sitesIn.map (fun s => siteWithNeighbors s [])).length)
          (sitesIn.map (fun s => siteWithNeighbors s [])))).getD i
        dummySite).neighbors = [] := by
      rw [List.getD_eq_getElem?_getD, List.getElem?_eq_none]
      · rfl
      · rw [hOKF.1]; omega
    rw [hempty] at hj
    exact List.not_mem_nil j hj

/- ---------------------------------------------------------------- -/
/- Well-formedness through the lane-building stages                  -/
/- ---------------------------------------------------------------- -/

/- The invariant carried through every lane-creating stage: the side map
matches the lanes, no self lanes, no duplicated unordered pairs, and every
endpoint id names a system. -/
def WF (systems : List StarSystem) (st : GraphState) : Prop :=
  GoodState st ∧ EndpointsIn systems st.warpLanes

theorem wf_empty (systems : List StarSystem) :
    WF systems ⟨[], fun _ => []⟩ := by
  refine ⟨⟨?_, ?_, ?_⟩, ?_⟩
  · intro a b
    constructor
    · intro h
      exact absurd h (List.not_mem_nil b)
    · rintro ⟨l, hl, -⟩
      exact absurd hl (List.not_mem_nil l)
  · intro l hl
    exact absurd hl (List.not_mem_nil l)
  · exact List.Pairwise.nil
  · intro l hl
    exact absurd hl (List.not_mem_nil l)

theorem wf_createWarpLane {systems : List StarSystem} {st : GraphState}
    (hwf : WF systems st) {system1 system2 : StarSystem}
    (h1 : system1.id ∈ systems.map StarSystem.id)
    (h2 : system2.id ∈ systems.map StarSystem.id)
    (hne : system1.id ≠ system2.id) (distance : ℚ) :
    WF systems (createWarpLane system1 system2 distance st) := by
  refine ⟨goodState_createWarpLane hwf.1 system1 system2 distance hne, ?_⟩
  intro l hl
  rcases createWarpLane_lanes system1 system2 distance st with h | h
  · rw [h] at hl
    exact hwf.2 l hl
  · rw [h] at hl
    rcases List.mem_append.1 hl with hl | hl
    · exact hwf.2 l hl
    · rcases List.mem_singleton.1 hl with rfl
      exact ⟨h1, h2⟩

theorem laneBetween_cons {l : WarpLane} {ls : List WarpLane} {a b : String} :
    laneBetween (l :: ls) a b ↔
      ((l.fromId = a ∧ l.toId = b) ∨ (l.fromId = b ∧ l.toId = a)) ∨
      laneBetween ls a b := by
  rw [show l :: ls = [l] ++ ls from rfl, laneBetween_append,
    laneBetween_single]

theorem mem_connFromLanes_aux :
    ∀ (lanes : List WarpLane) (c : ConnMap) (a b : String),
      b ∈ (lanes.foldl
        (fun c lane => connPush (connPush c lane.fromId lane.toId)
          lane.toId lane.fromId) c) a ↔
        b ∈ c a ∨ laneBetween lanes a b := by
  intro lanes
  induction lanes with
  | nil =>
    intro c a b
    rw [List.foldl_nil]
    constructor
    · exact Or.inl
    · rintro (h | ⟨l, hl, -⟩)
      · exact h
      · exact absurd hl (List.not_mem_nil l)
  | cons l ls ih =>
    intro c a b
    rw [List.foldl_cons, ih, mem_connPush, mem_connPush, laneBetween_cons]
    constructor
    · rintro (((h | ⟨rfl, rfl⟩) | ⟨rfl, rfl⟩) | h)
      · exact Or.inl h
      · exact Or.inr (Or.inl (Or.inl ⟨rfl, rfl⟩))
      · exact Or.inr (Or.inl (Or.inr ⟨rfl, rfl⟩))
      · exact Or.inr (Or.inr h)
    · rintro (h | (⟨rfl, rfl⟩ | ⟨rfl, rfl⟩) | h)
      · exact Or.inl (Or.inl (Or.inl h))
      · exact Or.inl (Or.inl (Or.inr ⟨rfl, rfl⟩))
      · exact Or.inl (Or.inr ⟨rfl, rfl⟩)
      · exact Or.inr h

/- The rebuilt side map (galaxy.cpp:50-59) matches the lane list. -/
theorem connFromLanes_adjInv (lanes : List WarpLane) :
    AdjInv ⟨lanes, connFromLanes lanes⟩ := by
  intro a b
  show b ∈ connFromLanes lanes a ↔ laneBetween lanes a b
  unfold connFromLanes
  rw [mem_connFromLanes_aux]
  constructor
  · rintro (h | h)
    · exact absurd h (List.not_mem_nil b)
    · exact h
  · exact Or.inr

theorem goodState_rebuild {lanes : List WarpLane}
    (hns : NoSelf lanes) (hpu : PairUnique lanes) :
    GoodState ⟨lanes, connFromLanes lanes⟩ :=
  ⟨connFromLanes_adjInv lanes, hns, hpu⟩

/- ---------------------------------------------------------------- -/
/- ensureMinimumConnectivity preserves WF                            -/
/- ---------------------------------------------------------------- -/

theorem nearestStep_none (system other : StarSystem)
    (hid : other.id ≠ system.id) :
    nearestStep system none other =
      some (other, dist2 system.pos other.pos) := by
  unfold nearestStep
  rw [if_pos hid]

theorem nearestStep_some (system other qs : StarSystem) (qd : ℚ)
    (hid : other.id ≠ system.id) :
    nearestStep system (some (qs, qd)) other =
      if dist2 system.pos other.pos < qd
      then some (other, dist2 system.pos other.pos)
      else some (qs, qd) := by
  unfold nearestStep
  rw [if_pos hid]

theorem nearestStep_self (system other : StarSystem)
    (o : Option (StarSystem × ℚ)) (hid : ¬ other.id ≠ system.id) :
    nearestStep system o other = o := by
  unfold nearestStep
  rw [if_neg hid]

/- The nearest-system scan only ever returns a member of the scanned list
whose id differs from the probing system. -/
theorem nearestOther_spec (systems : List StarSystem) (system : StarSystem) :
    ∀ p, nearestOther systems system = some p →
      p.1 ∈ systems ∧ p.1.id ≠ system.id := by
  unfold nearestOther
  refine foldl_preserve
    (fun o => ∀ p, o = some p → p.1 ∈ systems ∧ p.1.id ≠ system.id)
    (nearestStep system) systems none ?_ ?_
  · intro p hp
    exact absurd hp (by simp)
  · intro o other hmem ho p hp
    by_cases hid : other.id ≠ system.id
    · rcases o with - | ⟨qs, qd⟩
      · rw [nearestStep_none system other hid] at hp
        cases Option.some.inj hp
        exact ⟨hmem, hid⟩
      · rw [nearestStep_some system other qs qd hid] at hp
        by_cases hlt : dist2 system.pos other.pos < qd
        · rw [if_pos hlt] at hp
          cases Option.some.inj hp
          exact ⟨hmem, hid⟩
        · rw [if_neg hlt] at hp
          exact ho p hp
    · rw [nearestStep_self system other o hid] at hp
      exact ho p hp

theorem wf_ensureMinStep (cfg : GalaxyConfig) {systems : List StarSystem}
    {st : GraphState} (hwf : WF systems st) {system : StarSystem}
    (hmem : system ∈ systems) :
    WF systems (ensureMinStep cfg systems st system) := by
  unfold ensureMinStep
  split
  · split
    · split
      · rename_i nearest minDistance hno hd
        obtain ⟨hpm, hpne⟩ := nearestOther_spec systems system
          (nearest, minDistance) hno
        exact wf_createWarpLane hwf (List.mem_map_of_mem _ hmem)
          (List.mem_map_of_mem _ hpm) (Ne.symm hpne) minDistance
      · exact hwf
    · exact hwf
  · exact hwf

theorem wf_ensureMinimumConnectivity (cfg : GalaxyConfig)
    {systems : List StarSystem} {st : GraphState} (hwf : WF systems st) :
    WF systems (ensureMinimumConnectivity cfg systems st) :=
  foldl_preserve (WF systems) (ensureMinStep cfg systems) systems st hwf
    (fun _ _a ha hb => wf_ensureMinStep cfg hb ha)

/- ensureMinimumConnectivity only ever appends lanes. -/
theorem ensureMin_lanes_extend (cfg : GalaxyConfig)
    (systems : List StarSystem) (st : GraphState) :
    ∃ ext, (ensureMinimumConnectivity cfg systems st).warpLanes =
      st.warpLanes ++ ext := by
  unfold ensureMinimumConnectivity
  refine foldl_preserve
    (fun s => ∃ ext, s.warpLanes = st.warpLanes ++ ext)
    (ensureMinStep cfg systems) systems st ⟨[], (List.append_nil _).symm⟩ ?_
  intro b a ha hb
  obtain ⟨ext, hext⟩ := hb
  unfold ensureMinStep
  split
  · split
    · split
      · rename_i nearest minDistance hno hd
        rcases createWarpLane_lanes a nearest minDistance b with h | h
        · exact ⟨ext, by rw [h, hext]⟩
        · exact ⟨ext ++ [madeLane a nearest minDistance],
            by rw [h, hext, List.append_assoc]⟩
      · exact ⟨ext, hext⟩
    · exact ⟨ext, hext⟩
  · exact ⟨ext, hext⟩

/- ---------------------------------------------------------------- -/
/- Phase 1 of generateWarpLanes preserves WF                         -/
/- ---------------------------------------------------------------- -/

theorem phase1Candidates_mem {cfg : GalaxyConfig}
    {systems : List StarSystem} {system : StarSystem} {c : StarSystem × ℚ}
    (hc : c ∈ phase1Candidates cfg systems system) :
    c.1 ∈ systems ∧ c.1.id ≠ system.id := by
  unfold phase1Candidates at hc
  rw [List.mem_filterMap] at hc
  obtain ⟨other, hmem, he⟩ := hc
  by_cases hid : other.id ≠ system.id
  · rw [if_pos hid] at he
    by_cases hd : distLe (dist2 system.pos other.pos)
        cfg.connectivity.maxDistance = true
    · rw [if_pos hd] at he
      cases Option.some.inj he
      exact ⟨hmem, hid⟩
    · rw [if_neg hd] at he
      exact absurd he (by simp)
  · rw [if_neg hid] at he
    exact absurd he (by simp)

theorem wf_phase1aStep {cfg : GalaxyConfig} {systems : List StarSystem}
    {system : StarSystem} (hmem : system ∈ systems) {st : GraphState}
    (hwf : WF systems st) {cand : StarSystem × ℚ}
    (hcand : cand ∈ phase1Candidates cfg systems system) :
    WF systems (phase1aStep system st cand) := by
  unfold phase1aStep
  split
  · exact hwf
  · obtain ⟨hm, hne⟩ := phase1Candidates_mem hcand
    exact wf_createWarpLane hwf (List.mem_map_of_mem _ hmem)
      (List.mem_map_of_mem _ hm) (Ne.symm hne) cand.2

theorem wf_phase1bStep {cfg : GalaxyConfig} {systems : List StarSystem}
    {system : StarSystem} (hmem : system ∈ systems) (ti : Int)
    {acc : GraphState × Rng} (hwf : WF systems acc.1)
    {cand : StarSystem × ℚ}
    (hcand : cand ∈ phase1Candidates cfg systems system) :
    WF systems (phase1bStep system ti acc cand).1 := by
  unfold phase1bStep
  split
  · exact hwf
  · split
    · exact hwf
    · dsimp only
      split
      · obtain ⟨hm, hne⟩ := phase1Candidates_mem hcand
        exact wf_createWarpLane hwf (List.mem_map_of_mem _ hmem)
          (List.mem_map_of_mem _ hm) (Ne.symm hne) cand.2
      · exact hwf

theorem wf_phase1System {cfg : GalaxyConfig} {systems : List StarSystem}
    {acc : GraphState × Rng} (hwf : WF systems acc.1)
    {system : StarSystem} (hmem : system ∈ systems) :
    WF systems (phase1System cfg systems acc system).1 := by
  unfold phase1System
  refine foldl_preserve (fun (a : GraphState × Rng) => WF systems a.1)
    (phase1bStep system acc.2.drawInt.1) _ _ ?_ ?_
  · refine foldl_preserve (WF systems) (phase1aStep system) _ acc.1 hwf ?_
    intro b a ha hb
    exact wf_phase1aStep hmem hb
      ((List.mergeSort_perm _ candLE).mem_iff.1 (List.mem_of_mem_take ha))
  · intro b a ha hb
    exact wf_phase1bStep hmem acc.2.drawInt.1 hb
      ((List.mergeSort_perm _ candLE).mem_iff.1 ha)

/- The traditional lane builder: the output state is well-formed and its
lane graph connects every pair of systems. -/
theorem generateWarpLanes_spec (cfg : GalaxyConfig)
    (systems : List StarSystem) (rng : Rng)
    (hnd : (systems.map StarSystem.id).Nodup) :
    WF systems (generateWarpLanes cfg systems rng).1 ∧
    ∀ i j, i < systems.length → j < systems.length →
      ReachIdx systems (generateWarpLanes cfg systems rng).1.warpLanes
        i j := by
  have h1 : WF systems (systems.foldl (phase1System cfg systems)
      (⟨[], fun _ => []⟩, rng)).1 :=
    foldl_preserve (fun (a : GraphState × Rng) => WF systems a.1)
      (phase1System cfg systems) systems _ (wf_empty systems)
      (fun b a ha hb => wf_phase1System hb ha)
  have h2 := wf_ensureMinimumConnectivity cfg h1
  have h3 := ensureNetworkConnectivity_spec systems _ hnd h2.1 h2.2
  exact ⟨⟨h3.1, h3.2.1⟩, h3.2.2⟩

/- ---------------------------------------------------------------- -/
/- Voronoi path: claimed-site bookkeeping                            -/
/- ---------------------------------------------------------------- -/

theorem findLastSystem_spec (systems : List StarSystem) (id : String) :
    ∀ sys, findLastSystem systems id = some sys →
      sys ∈ systems ∧ sys.id = id := by
  unfold findLastSystem
  refine foldl_preserve
    (fun (o : Option StarSystem) => ∀ sys, o = some sys →
      sys ∈ systems ∧ sys.id = id)
    (fun acc sys => if sys.id = id then some sys else acc)
    systems none ?_ ?_
  · intro sys h
    exact absurd h (by simp)
  · intro o a ha ho sys h
    dsimp only at h
    by_cases he : a.id = id
    · rw [if_pos he] at h
      cases Option.some.inj h
      exact ⟨ha, he⟩
    · rw [if_neg he] at h
      exact ho sys h

/- Distinct claimed sites carry distinct system ids. -/
def ClaimedDistinct (sites : List VoronoiSite) : Prop :=
  ∀ i j, i < sites.length → j < sites.length → i ≠ j →
    (sites.getD i dummySite).hasSystem = true →
    (sites.getD j dummySite).hasSystem = true →
    (sites.getD i dummySite).systemId ≠ (sites.getD j dummySite).systemId

/- No site claimed yet. -/
def AllUnclaimed (sites : List VoronoiSite) : Prop :=
  ∀ s ∈ sites, s.hasSystem = false

/- Claimed system ids are drawn from `ids`, pairwise distinctly. -/
def ClaimInv (sites : List VoronoiSite) (ids : List String) : Prop :=
  ClaimedDistinct sites ∧
  ∀ i, i < sites.length → (sites.getD i dummySite).hasSystem = true →
    (sites.getD i dummySite).systemId ∈ ids

theorem getD_mem_of_lt {α : Type} {l : List α} {i : Nat} (d : α)
    (hi : i < l.length) : l.getD i d ∈ l := by
  rw [List.getD_eq_getElem _ _ hi]
  exact List.getElem_mem hi

theorem claimInv_of_unclaimed {sites : List VoronoiSite}
    (h : AllUnclaimed sites) (ids : List String) : ClaimInv sites ids := by
  constructor
  · intro i j hi hj hij hsi hsj
    exact absurd hsi (by rw [h (sites.getD i dummySite)
      (getD_mem_of_lt dummySite hi)]; simp)
  · intro i hi hsi
    exact absurd hsi (by rw [h (sites.getD i dummySite)
      (getD_mem_of_lt dummySite hi)]; simp)

theorem claimSite_getD (sites : List VoronoiSite) (k : Nat) (id : String)
    (z : Nat) :
    (claimSite sites k id).getD z dummySite =
      if k < sites.length ∧ z = k then
        ⟨(sites.getD k dummySite).x, (sites.getD k dummySite).y,
         (sites.getD k dummySite).neighbors, id, true⟩
      else sites.getD z dummySite := by
  unfold claimSite
  rcases Nat.lt_or_ge k sites.length with hk | hk
  · rw [getD_set_gen _ hk z dummySite]
    by_cases hz : z = k
    · rw [if_pos hz, if_pos ⟨hk, hz⟩]
    · rw [if_neg hz, if_neg (fun h => hz h.2)]
  · rw [List.set_eq_of_length_le hk,
      if_neg (fun h => absurd h.1 (by omega))]

theorem claimSite_length (sites : List VoronoiSite) (k : Nat) (id : String) :
    (claimSite sites k id).length = sites.length := by
  unfold claimSite
  rw [List.length_set]

theorem claimInv_claimSite {sites : List VoronoiSite} {ids : List String}
    (h : ClaimInv sites ids) (k : Nat) {id : String} (hfresh : id ∉ ids) :
    ClaimInv (claimSite sites k id) (ids ++ [id]) := by
  constructor
  · intro i j hi hj hij hsi hsj
    rw [claimSite_length] at hi hj
    rw [claimSite_getD sites k id i] at hsi
    rw [claimSite_getD sites k id j] at hsj
    rw [claimSite_getD sites k id i, claimSite_getD sites k id j]
    by_cases hik : k < sites.length ∧ i = k
    · rw [if_pos hik] at hsi ⊢
      have hjk : ¬ (k < sites.length ∧ j = k) :=
        fun hh => hij (hik.2.trans hh.2.symm)
      rw [if_neg hjk] at hsj ⊢
      show id ≠ (sites.getD j dummySite).systemId
      intro he
      exact hfresh (by rw [he]; exact h.2 j hj hsj)
    · rw [if_neg hik] at hsi ⊢
      by_cases hjk : k < sites.length ∧ j = k
      · rw [if_pos hjk] at hsj ⊢
        show (sites.getD i dummySite).systemId ≠ id
        intro he
        exact hfresh (by rw [← he]; exact h.2 i hi hsi)
      · rw [if_neg hjk] at hsj ⊢
        exact h.1 i j hi hj hij hsi hsj
  · intro i hi hsi
    rw [claimSite_length] at hi
    rw [claimSite_getD sites k id i] at hsi
    rw [claimSite_getD sites k id i]
    by_cases hik : k < sites.length ∧ i = k
    · rw [if_pos hik]
      show id ∈ ids ++ [id]
      exact List.mem_append.2 (Or.inr (List.mem_singleton.2 rfl))
    · rw [if_neg hik] at hsi ⊢
      exact List.mem_append.2 (Or.inl (h.2 i hi hsi))

/- ---------------------------------------------------------------- -/
/- Sites keep their position/claim data through the neighbor passes  -/
/- ---------------------------------------------------------------- -/

def siteSkel (s : VoronoiSite) : ℚ × ℚ × String × Bool :=
  (s.x, s.y, s.systemId, s.hasSystem)

/- Pointwise equality of everything but the neighbor lists. -/
def SkelEq (s1 s2 : List VoronoiSite) : Prop :=
  s1.length = s2.length ∧
  ∀ i, siteSkel (s1.getD i dummySite) = siteSkel (s2.getD i dummySite)

theorem skelEq_refl (s : List VoronoiSite) : SkelEq s s :=
  ⟨rfl, fun _ => rfl⟩

theorem skelEq_trans {s1 s2 s3 : List VoronoiSite} (h1 : SkelEq s1 s2)
    (h2 : SkelEq s2 s3) : SkelEq s1 s3 :=
  ⟨h1.1.trans h2.1, fun i => (h1.2 i).trans (h2.2 i)⟩

theorem skelEq_set (sites : List VoronoiSite) (k : Nat) (nb : List Nat) :
    SkelEq (sites.set k (siteWithNeighbors (sites.getD k dummySite) nb))
      sites := by
  constructor
  · rw [List.length_set]
  · intro z
    rcases Nat.lt_or_ge k sites.length with hk | hk
    · rw [getD_set_gen _ hk z dummySite]
      by_cases hz : z = k
      · rw [if_pos hz, hz]
        rfl
      · rw [if_neg hz]
    · rw [List.set_eq_of_length_le hk]

theorem skelEq_neighborScanStep (cfg : GalaxyConfig) (n : Nat)
    (sites : List VoronoiSite) (i : Nat) :
    SkelEq (neighborScanStep cfg n sites i) sites :=
  skelEq_set sites i _

theorem skelEq_symInnerStep (i : Nat) (sites : List VoronoiSite)
    (neighborIdx : Nat) :
    SkelEq (symInnerStep i sites neighborIdx) sites := by
  unfold symInnerStep
  dsimp only
  split
  · exact skelEq_refl sites
  · exact skelEq_set sites neighborIdx _

theorem skelEq_symOuterStep (sites : List VoronoiSite) (i : Nat) :
    SkelEq (symOuterStep sites i) sites := by
  unfold symOuterStep
  refine foldl_preserve (fun s => SkelEq s sites) (symInnerStep i) _ sites
    (skelEq_refl sites) ?_
  intro b a ha hb
  exact skelEq_trans (skelEq_symInnerStep i b a) hb

theorem computeVoronoiNeighbors_skel (cfg : GalaxyConfig)
    (sitesIn : List VoronoiSite) :
    SkelEq (computeVoronoiNeighbors cfg sitesIn)
      (sitesIn.map (fun s => siteWithNeighbors s [])) := by
  rw [computeVoronoiNeighbors_eq]
  refine foldl_preserve
    (fun s => SkelEq s (sitesIn.map (fun s => siteWithNeighbors s [])))
    symOuterStep _ _ ?_ ?_
  · refine foldl_preserve
      (fun s => SkelEq s (sitesIn.map (fun s => siteWithNeighbors s [])))
      (neighborScanStep cfg
        (sitesIn.map (fun s => siteWithNeighbors s [])).length) _ _
      (skelEq_refl _) ?_
    intro b a ha hb
    exact skelEq_trans (skelEq_neighborScanStep cfg _ b a) hb
  · intro b a ha hb
    exact skelEq_trans (skelEq_symOuterStep b a) hb

theorem allUnclaimed_of_skelEq {s1 s2 : List VoronoiSite}
    (h : SkelEq s1 s2) (h2 : AllUnclaimed s2) : AllUnclaimed s1 := by
  intro s hs
  obtain ⟨i, hi, rfl⟩ := List.mem_iff_getElem.1 hs
  have hski := h.2 i
  rw [List.getD_eq_getElem _ _ hi] at hski
  have hi2 : i < s2.length := h.1 ▸ hi
  rw [List.getD_eq_getElem _ _ hi2] at hski
  have hhs : s1[i].hasSystem = s2[i].hasSystem :=
    congrArg (fun q => q.2.2.2) hski
  rw [hhs]
  exact h2 _ (List.getElem_mem hi2)

theorem allUnclaimed_map_reset {sitesIn : List VoronoiSite}
    (h : AllUnclaimed sitesIn) :
    AllUnclaimed (sitesIn.map (fun s => siteWithNeighbors s [])) := by
  intro s hs
  obtain ⟨t, ht, rfl⟩ := List.mem_map.1 hs
  exact h t ht

theorem generateVoronoiSites_unclaimed (memberSites : List VoronoiSite)
    (numSites : Int) (rng : Rng) :
    AllUnclaimed (generateVoronoiSites memberSites numSites rng).1 := by
  unfold generateVoronoiSites
  refine foldl_preserve
    (fun (acc : List VoronoiSite × Rng) => AllUnclaimed acc.1)
    (fun acc _ => voronoiSiteStep memberSites acc) _ ([], rng) ?_ ?_
  · intro s hs
    exact absurd hs (List.not_mem_nil s)
  · intro b a ha hb site hsite
    unfold voronoiSiteStep at hsite
    dsimp only at hsite
    rcases hv : (voronoiSample memberSites (5/2) 499 b.2).1 with - | p
    · rw [hv] at hsite
      exact hb site hsite
    · rw [hv] at hsite
      have hs2 : site ∈ b.1 ++ [(⟨p.1, p.2, [], "", false⟩ : VoronoiSite)] :=
        hsite
      rcases List.mem_append.1 hs2 with h | h
      · exact hb site h
      · rcases List.mem_singleton.1 h with rfl
        rfl

/- ---------------------------------------------------------------- -/
/- generateSystemsFromVoronoi: system ids claim sites injectively    -/
/- ---------------------------------------------------------------- -/

theorem fixedAssignStep_char
    (acc : List VoronoiSite × List StarSystem × Rng) (f : FixedSystem) :
    ∃ k, (fixedAssignStep acc f).1 = claimSite acc.1 k f.id ∧
      ((fixedAssignStep acc f).2.1).map StarSystem.id =
        acc.2.1.map StarSystem.id ++ [f.id] := by
  refine ⟨closestUnclaimedSite acc.1
    (if f.hasFixedPosition then ((f.x, f.y), acc.2.2)
     else acc.2.2.drawPos).1, rfl, ?_⟩
  show (acc.2.1 ++ [_]).map StarSystem.id = _
  rw [List.map_append]
  rfl

theorem fixedFoldV_spec :
    ∀ (fs : List FixedSystem)
      (acc : List VoronoiSite × List StarSystem × Rng),
      ((fs.foldl fixedAssignStep acc).2.1).map StarSystem.id =
        acc.2.1.map StarSystem.id ++ fs.map FixedSystem.id ∧
      ((((fs.foldl fixedAssignStep acc).2.1).map StarSystem.id).Nodup →
        ClaimInv acc.1 (acc.2.1.map StarSystem.id) →
        ClaimInv ((fs.foldl fixedAssignStep acc).1)
          (((fs.foldl fixedAssignStep acc).2.1).map StarSystem.id)) := by
  intro fs
  induction fs with
  | nil =>
    intro acc
    exact ⟨(List.append_nil _).symm, fun _ h => h⟩
  | cons f rest ih =>
    intro acc
    obtain ⟨k, hsites, hids⟩ := fixedAssignStep_char acc f
    obtain ⟨ih1, ih2⟩ := ih (fixedAssignStep acc f)
    rw [List.foldl_cons]
    constructor
    · rw [ih1, hids, List.map_cons, List.append_assoc]
      rfl
    · intro hnd hci
      refine ih2 hnd ?_
      rw [hids, hsites]
      refine claimInv_claimSite hci k ?_
      rw [ih1, hids, List.append_assoc] at hnd
      intro hmem
      rcases List.nodup_append.1 hnd with ⟨-, -, hdisj⟩
      exact hdisj hmem
        (List.mem_append.2 (Or.inl (List.mem_singleton.2 rfl)))

theorem fillStep_char (cfg : GalaxyConfig)
    (acc : List VoronoiSite × List StarSystem × Nat) (i : Nat) :
    fillStep cfg acc i = acc ∨
      ((fillStep cfg acc i).1 = claimSite acc.1 i
          ("system-" ++ toString acc.2.2) ∧
       ((fillStep cfg acc i).2.1).map StarSystem.id =
         acc.2.1.map StarSystem.id ++ ["system-" ++ toString acc.2.2]) := by
  unfold fillStep
  split
  · exact Or.inl rfl
  · split
    · exact Or.inl rfl
    · refine Or.inr ⟨rfl, ?_⟩
      show (acc.2.1 ++ [_]).map StarSystem.id = _
      rw [List.map_append]
      rfl

theorem fillFoldV_spec (cfg : GalaxyConfig) :
    ∀ (l : List Nat) (acc : List VoronoiSite × List StarSystem × Nat),
      ∃ L, ((l.foldl (fillStep cfg) acc).2.1).map StarSystem.id =
          acc.2.1.map StarSystem.id ++ L ∧
        ((((l.foldl (fillStep cfg) acc).2.1).map StarSystem.id).Nodup →
          ClaimInv acc.1 (acc.2.1.map StarSystem.id) →
          ClaimInv ((l.foldl (fillStep cfg) acc).1)
            (((l.foldl (fillStep cfg) acc).2.1).map StarSystem.id)) := by
  intro l
  induction l with
  | nil =>
    intro acc
    exact ⟨[], (List.append_nil _).symm, fun _ h => h⟩
  | cons i rest ih =>
    intro acc
    obtain ⟨L, ihL, ihCI⟩ := ih (fillStep cfg acc i)
    rw [List.foldl_cons]
    rcases fillStep_char cfg acc i with heq | ⟨hsites, hids⟩
    · refine ⟨L, ?_, ?_⟩
      · rw [ihL, heq]
      · intro hnd hci
        exact ihCI hnd (by rw [heq]; exact hci)
    · refine ⟨("system-" ++ toString acc.2.2) :: L, ?_, ?_⟩
      · rw [ihL, hids, List.append_assoc]
        rfl
      · intro hnd hci
        refine ihCI hnd ?_
        rw [hids, hsites]
        refine claimInv_claimSite hci i ?_
        rw [ihL, hids, List.append_assoc] at hnd
        intro hmem
        rcases List.nodup_append.1 hnd with ⟨-, -, hdisj⟩
        exact hdisj hmem
          (List.mem_append.2 (Or.inl (List.mem_singleton.2 rfl)))

/- When the returned systems carry pairwise-distinct ids, the claimed
sites returned alongside carry pairwise-distinct system ids. -/
theorem generateSystemsFromVoronoi_claimedDistinct (cfg : GalaxyConfig)
    (sitesIn : List VoronoiSite) (rng : Rng)
    (hun : AllUnclaimed sitesIn)
    (hnd : (((generateSystemsFromVoronoi cfg sitesIn rng).2.1).map
      StarSystem.id).Nodup) :
    ClaimedDistinct ((generateSystemsFromVoronoi cfg sitesIn rng).1) := by
  obtain ⟨L, hL, hCI⟩ := fillFoldV_spec cfg
    (List.range (cfg.fixedSystems.foldl fixedAssignStep
      (sitesIn, [], rng)).1.length)
    ((cfg.fixedSystems.foldl fixedAssignStep (sitesIn, [], rng)).1,
     (cfg.fixedSystems.foldl fixedAssignStep (sitesIn, [], rng)).2.1, 1)
  obtain ⟨hfix1, hfix2⟩ := fixedFoldV_spec cfg.fixedSystems (sitesIn, [], rng)
  have hnd' : ((((List.range (cfg.fixedSystems.foldl fixedAssignStep
      (sitesIn, [], rng)).1.length).foldl (fillStep cfg)
      ((cfg.fixedSystems.foldl fixedAssignStep (sitesIn, [], rng)).1,
       (cfg.fixedSystems.foldl fixedAssignStep (sitesIn, [], rng)).2.1,
       1)).2.1).map StarSystem.id).Nodup := hnd
  have hndFix : (((cfg.fixedSystems.foldl fixedAssignStep
      (sitesIn, [], rng)).2.1).map StarSystem.id).Nodup := by
    rw [hL] at hnd'
    exact List.Nodup.of_append_left hnd'
  have hciFix := hfix2 hndFix (claimInv_of_unclaimed hun _)
  exact (hCI hnd' hciFix).1

/- ---------------------------------------------------------------- -/
/- generateVoronoiWarpLanes establishes WF                           -/
/- ---------------------------------------------------------------- -/

theorem wf_voronoiLaneStep (cfg : GalaxyConfig) {sites : List VoronoiSite}
    {systems : List StarSystem} (hcd : ClaimedDistinct sites) {i : Nat}
    (hi : i < sites.length)
    (hhs : (sites.getD i dummySite).hasSystem = true)
    {st : GraphState} (hwf : WF systems st) (neighborIdx : Nat) :
    WF systems (voronoiLaneStep cfg sites systems i st neighborIdx) := by
  unfold voronoiLaneStep
  split
  · exact hwf
  · rename_i hg
    have hlt : neighborIdx < sites.length := by
      by_contra hc
      refine hg ?_
      rw [Bool.or_eq_true]
      exact Or.inl (decide_eq_true (by omega))
    have hbs : (sites.getD neighborIdx dummySite).hasSystem = true := by
      cases hx : (sites.getD neighborIdx dummySite).hasSystem
      · refine absurd ?_ hg
        rw [Bool.or_eq_true]
        exact Or.inr (by rw [hx]; rfl)
      · rfl
    split
    · rename_i hij
      split
      · rename_i system1 system2 heq1 heq2
        obtain ⟨hm1, hid1⟩ := findLastSystem_spec systems _ system1 heq1
        obtain ⟨hm2, hid2⟩ := findLastSystem_spec systems _ system2 heq2
        dsimp only
        split
        · refine wf_createWarpLane hwf (List.mem_map_of_mem _ hm1)
            (List.mem_map_of_mem _ hm2) ?_ _
          rw [hid1, hid2]
          exact hcd i neighborIdx hi hlt (Nat.ne_of_lt hij) hhs hbs
        · exact hwf
      · exact hwf
    · exact hwf

theorem wf_voronoiSiteLanes (cfg : GalaxyConfig) {sites : List VoronoiSite}
    {systems : List StarSystem} (hcd : ClaimedDistinct sites)
    {st : GraphState} (hwf : WF systems st) {i : Nat}
    (hi : i < sites.length) :
    WF systems (voronoiSiteLanes cfg sites systems st i) := by
  unfold voronoiSiteLanes
  split
  · exact hwf
  · rename_i hg
    have hhs : (sites.getD i dummySite).hasSystem = true := by
      cases hx : (sites.getD i dummySite).hasSystem
      · exact absurd (by rw [hx]; rfl) hg
      · rfl
    exact foldl_preserve (WF systems)
      (voronoiLaneStep cfg sites systems i) _ st hwf
      (fun b a ha hb => wf_voronoiLaneStep cfg hcd hi hhs hb a)

theorem wf_generateVoronoiWarpLanes (cfg : GalaxyConfig)
    {sites : List VoronoiSite} (systems : List StarSystem)
    (hcd : ClaimedDistinct sites) :
    WF systems (generateVoronoiWarpLanes cfg sites systems) := by
  unfold generateVoronoiWarpLanes
  refine wf_ensureMinimumConnectivity cfg ?_
  refine foldl_preserve (WF systems) (voronoiSiteLanes cfg sites systems)
    _ _ (wf_empty systems) ?_
  intro b a ha hb
  exact wf_voronoiSiteLanes cfg hcd hb (List.mem_range.1 ha)

/- ---------------------------------------------------------------- -/
/- addRedundantConnections preserves WF                              -/
/- ---------------------------------------------------------------- -/

theorem redundantTargets_mem {systems : List StarSystem} {st : GraphState}
    {vIdx : Nat} {e : ℚ × Nat}
    (he : e ∈ redundantTargets systems st vIdx) :
    e.2 < systems.length ∧ e.2 ≠ vIdx := by
  unfold redundantTargets at he
  rw [(List.mergeSort_perm _ _).mem_iff, List.mem_filterMap] at he
  obtain ⟨tIdx, htmem, hsome⟩ := he
  dsimp only at hsome
  by_cases h1 : tIdx = vIdx
  · rw [if_pos h1] at hsome
    exact absurd hsome (by simp)
  · rw [if_neg h1] at hsome
    by_cases h2 : (systems.getD tIdx dummySystem).id ∈
        st.connections (systems.getD vIdx dummySystem).id
    · rw [if_pos h2] at hsome
      exact absurd hsome (by simp)
    · rw [if_neg h2] at hsome
      cases Option.some.inj hsome
      exact ⟨List.mem_range.1 htmem, h1⟩

theorem wf_redundantInnerStep (cfg : GalaxyConfig)
    {systems : List StarSystem}
    (hnd : (systems.map StarSystem.id).Nodup) {vIdx : Nat}
    (hv : vIdx < systems.length) (maxR : Nat) {acc : GraphState × Nat}
    (hwf : WF systems acc.1) {e : ℚ × Nat}
    (he : e.2 < systems.length ∧ e.2 ≠ vIdx) :
    WF systems (redundantInnerStep cfg systems vIdx maxR acc e).1 := by
  unfold redundantInnerStep
  split
  · exact hwf
  · dsimp only
    split
    · refine wf_createWarpLane hwf ?_ ?_ ?_ _
      · exact idOf_mem hv
      · exact idOf_mem he.1
      · exact idOf_ne hnd hv he.1 (Ne.symm he.2)
    · exact hwf

theorem wf_redundantVulnStep (cfg : GalaxyConfig)
    {systems : List StarSystem}
    (hnd : (systems.map StarSystem.id).Nodup) (maxR : Nat)
    {acc : GraphState × Nat} (hwf : WF systems acc.1) {vIdx : Nat}
    (hv : vIdx < systems.length) :
    WF systems (redundantVulnStep cfg systems maxR acc vIdx).1 := by
  unfold redundantVulnStep
  split
  · exact hwf
  · refine foldl_preserve (fun (a : GraphState × Nat) => WF systems a.1)
      (redundantInnerStep cfg systems vIdx maxR) _ acc hwf ?_
    intro b a ha hb
    exact wf_redundantInnerStep cfg hnd hv maxR hb
      (redundantTargets_mem (List.mem_of_mem_take ha))

theorem wf_addRedundantConnections (cfg : GalaxyConfig)
    {systems : List StarSystem} (hnd : (systems.map StarSystem.id).Nodup)
    {st : GraphState} (hwf : WF systems st) :
    WF systems (addRedundantConnections cfg systems st) := by
  unfold addRedundantConnections
  split
  · exact hwf
  · refine foldl_preserve (fun (a : GraphState × Nat) => WF systems a.1)
      (redundantVulnStep cfg systems (min (systems.length / 4) 40)) _
      (st, 0) hwf ?_
    intro b a ha hb
    exact wf_redundantVulnStep cfg hnd _ hb
      (List.mem_range.1 (List.mem_of_mem_filter ha))

/- ---------------------------------------------------------------- -/
/- The branch stage and the final state of generateGalaxy            -/
/- ---------------------------------------------------------------- -/

/- With duplicate-free system ids, the branch stage hands generateGalaxy
lanes that are self-loop-free, pair-unique and endpoint-closed. -/
theorem stage1_wf (cfg : GalaxyConfig) (rng : Rng)
    (hnd : ((stage1SystemsLanes cfg rng).1.map StarSystem.id).Nodup) :
    NoSelf (stage1SystemsLanes cfg rng).2.1 ∧
    PairUnique (stage1SystemsLanes cfg rng).2.1 ∧
    EndpointsIn (stage1SystemsLanes cfg rng).1
      (stage1SystemsLanes cfg rng).2.1 := by
  unfold stage1SystemsLanes at hnd ⊢
  by_cases hv : cfg.connectivity.useVoronoiConnectivity = true
  · rw [if_pos hv] at hnd ⊢
    have hun : AllUnclaimed (computeVoronoiNeighbors cfg
        (generateVoronoiSites [] cfg.starSystemCount rng).1) :=
      allUnclaimed_of_skelEq (computeVoronoiNeighbors_skel cfg _)
        (allUnclaimed_map_reset
          (generateVoronoiSites_unclaimed [] cfg.starSystemCount rng))
    have hcd := generateSystemsFromVoronoi_claimedDistinct cfg
      (computeVoronoiNeighbors cfg
        (generateVoronoiSites [] cfg.starSystemCount rng).1)
      (generateVoronoiSites [] cfg.starSystemCount rng).2 hun hnd
    have hwf := wf_generateVoronoiWarpLanes cfg
      (generateSystemsFromVoronoi cfg
        (computeVoronoiNeighbors cfg
          (generateVoronoiSites [] cfg.starSystemCount rng).1)
        (generateVoronoiSites [] cfg.starSystemCount rng).2).2.1 hcd
    exact ⟨hwf.1.2.1, hwf.1.2.2, hwf.2⟩
  · rw [if_neg hv] at hnd ⊢
    have h := (generateWarpLanes_spec cfg (generateStarSystems cfg rng).1
      (generateStarSystems cfg rng).2 hnd).1
    exact ⟨h.1.2.1, h.1.2.2, h.2⟩

/- The graph state after the Resilience Augmenter and the final
minimum-connectivity pass (galaxy.cpp:48-64); the returned galaxy reads
its lanes and its per-system connection lists from it. -/
def finalState (cfg : GalaxyConfig) (rng : Rng) : GraphState :=
  ensureMinimumConnectivity cfg (stage1SystemsLanes cfg rng).1
    (addRedundantConnections cfg (stage1SystemsLanes cfg rng).1
      ⟨(stage1SystemsLanes cfg rng).2.1,
       connFromLanes (stage1SystemsLanes cfg rng).2.1⟩)

theorem generateGalaxy_warpLanes (cfg : GalaxyConfig) (rng : Rng) :
    (generateGalaxy cfg rng).warpLanes =
      (finalState cfg rng).warpLanes := rfl

theorem generateGalaxy_systems (cfg : GalaxyConfig) (rng : Rng) :
    (generateGalaxy cfg rng).systems =
      (stage1SystemsLanes cfg rng).1.map
        (fun s => ⟨s.id, s.x, s.y, s.type, s.isFixed,
          (finalState cfg rng).connections s.id, s.explored⟩) := rfl

theorem generateGalaxy_systems_ids (cfg : GalaxyConfig) (rng : Rng) :
    (generateGalaxy cfg rng).systems.map StarSystem.id =
      (stage1SystemsLanes cfg rng).1.map StarSystem.id := by
  rw [generateGalaxy_systems, List.map_map]
  rfl

theorem finalState_wf (cfg : GalaxyConfig) (rng : Rng)
    (hnd : ((stage1SystemsLanes cfg rng).1.map StarSystem.id).Nodup) :
    WF (stage1SystemsLanes cfg rng).1 (finalState cfg rng) := by
  obtain ⟨hns, hpu, hep⟩ := stage1_wf cfg rng hnd
  have h0 : WF (stage1SystemsLanes cfg rng).1
      ⟨(stage1SystemsLanes cfg rng).2.1,
       connFromLanes (stage1SystemsLanes cfg rng).2.1⟩ :=
    ⟨goodState_rebuild hns hpu, hep⟩
  exact wf_ensureMinimumConnectivity cfg
    (wf_addRedundantConnections cfg hnd h0)

theorem finalState_lanes_extend (cfg : GalaxyConfig) (rng : Rng) :
    ∃ ext, (finalState cfg rng).warpLanes =
      (stage1SystemsLanes cfg rng).2.1 ++ ext := by
  obtain ⟨e1, he1, -, -⟩ := addRedundantConnections_bound cfg
    (stage1SystemsLanes cfg rng).1
    ⟨(stage1SystemsLanes cfg rng).2.1,
     connFromLanes (stage1SystemsLanes cfg rng).2.1⟩
  obtain ⟨e2, he2⟩ := ensureMin_lanes_extend cfg
    (stage1SystemsLanes cfg rng).1
    (addRedundantConnections cfg (stage1SystemsLanes cfg rng).1
      ⟨(stage1SystemsLanes cfg rng).2.1,
       connFromLanes (stage1SystemsLanes cfg rng).2.1⟩)
  refine ⟨e1 ++ e2, ?_⟩
  unfold finalState
  rw [he2, he1, List.append_assoc]

/- ---------------------------------------------------------------- -/
/- Reachability transfers along equal id sequences                   -/
/- ---------------------------------------------------------------- -/

theorem idOf_congr {systems1 systems2 : List StarSystem}
    (h : systems1.map StarSystem.id = systems2.map StarSystem.id)
    (k : Nat) : idOf systems1 k = idOf systems2 k := by
  have hlen : systems1.length = systems2.length := by
    have h2 := congrArg List.length h
    rwa [List.length_map, List.length_map] at h2
  unfold idOf
  rcases Nat.lt_or_ge k systems1.length with hk | hk
  · have hk2 : k < systems2.length := by omega
    rw [List.getD_eq_getElem _ _ hk, List.getD_eq_getElem _ _ hk2]
    have h1 := congrArg (fun l => l.getD k "") h
    dsimp only at h1
    rw [List.getD_eq_getElem _ _ (by rw [List.length_map]; exact hk),
      List.getD_eq_getElem _ _ (by rw [List.length_map]; exact hk2),
      List.getElem_map, List.getElem_map] at h1
    exact h1
  · rw [List.getD_eq_getElem?_getD, List.getElem?_eq_none hk,
      List.getD_eq_getElem?_getD, List.getElem?_eq_none (by omega)]

theorem reachIdx_of_ids_eq {systems1 systems2 : List StarSystem}
    (h : systems1.map StarSystem.id = systems2.map StarSystem.id)
    {lanes : List WarpLane} {i j : Nat}
    (hr : ReachIdx systems1 lanes i j) : ReachIdx systems2 lanes i j := by
  have hlen : systems1.length = systems2.length := by
    have h2 := congrArg List.length h
    rwa [List.length_map, List.length_map] at h2
  refine Relation.ReflTransGen.mono ?_ hr
  rintro a b ⟨ha, hb, hlb⟩
  refine ⟨by omega, by omega, ?_⟩
  rw [← idOf_congr h a, ← idOf_congr h b]
  exact hlb

/- ---------------------------------------------------------------- -/
/- Small helpers for concrete instances                              -/
/- ---------------------------------------------------------------- -/

theorem idOf_eq_map_getD (systems : List StarSystem) (k : Nat) :
    idOf systems k = (systems.map StarSystem.id).getD k "" := by
  unfold idOf
  rcases Nat.lt_or_ge k systems.length with hk | hk
  · rw [List.getD_eq_getElem _ _ hk,
      List.getD_eq_getElem _ _ (by rw [List.length_map]; exact hk),
      List.getElem_map]
  · rw [List.getD_eq_getElem?_getD, List.getElem?_eq_none hk,
      List.getD_eq_getElem?_getD,
      List.getElem?_eq_none (by rw [List.length_map]; exact hk)]
    rfl

/- The anomaly loop accepts its 100th draw rather than dropping a slot, so
the produced count always equals the requested count. -/
theorem generateAnomalies_length (cfg : GalaxyConfig)
    (systems : List StarSystem) (rng : Rng) :
    (generateAnomalies cfg systems rng).1.length =
      cfg.anomalyCount.toNat := by
  unfold generateAnomalies
  have main : ∀ (l : List Nat) (acc : List Anomaly × Rng),
      ((l.foldl (fun (acc : List Anomaly × Rng) _ =>
        let pr := rejectionSample
          (fun p => !(isPositionTooCloseToSystems p systems 3 ||
                      isPositionTooCloseAnomalies p acc.1 2)) 99 acc.2
        (acc.1 ++ [pr.1], pr.2)) acc).1).length =
      acc.1.length + l.length := by
    intro l
    induction l with
    | nil => intro acc; rfl
    | cons x xs ih =>
      intro acc
      rw [List.foldl_cons, ih, List.length_append, List.length_singleton,
        List.length_cons]
      omega
  rw [main, List.length_range]
  simp

/- ---------------------------------------------------------------- -/
/- Concrete instances used by counterexamples and witnesses          -/
/- ---------------------------------------------------------------- -/

/- A position stream that enumerates a fixed list and then repeats the
origin. -/
def posList (l : List Point) : Nat → Point := fun n => l.getD n (0, 0)

def rngOf (l : List Point) : Rng :=
  ⟨posList l, fun _ => false, fun _ => 0, 0, 0, 0⟩

def rngZero : Rng := rngOf []

/- Voronoi configuration whose run returns a disconnected lane graph. -/
def cfgV : GalaxyConfig := ⟨30, 4, 0, [], ⟨1, 3, 1, 1/2, true⟩⟩

def rngV : Rng := rngOf [(0, 0), (3, 0), (20, 0), (23, 0)]

def idsV : List String := ["system-1", "system-2", "system-3", "system-4"]

def lanesV : List WarpLane :=
  [⟨"system-1-system-2", "system-1", "system-2", 9, 2, false⟩,
   ⟨"system-3-system-4", "system-3", "system-4", 9, 2, false⟩]

/- A small traditional-path configuration with two generated systems. -/
def cfgT : GalaxyConfig := ⟨100, 2, 0, [], ⟨1, 3, 50, 1/2, false⟩⟩

def rngT : Rng := rngOf [(0, 0), (10, 0)]

/- More fixed systems than the requested total system count. -/
def cfgBad : GalaxyConfig :=
  ⟨100, 1, 0,
   [⟨"alpha", "origin", true, 0, 0, 0, 0⟩,
    ⟨"beta", "major", true, 10, 0, 0, 0⟩],
   ⟨1, 3, 50, 1/2, false⟩⟩

def rngB : Rng := rngOf []

/- Traditional path, three systems, constant position stream. -/
def cfgC3 : GalaxyConfig := ⟨100, 3, 0, [], ⟨1, 3, 50, 1/2, false⟩⟩

/- Two equal-distance candidate bridges whose id-lexicographic and
index-lexicographic orders disagree. -/
def sysC6 : List StarSystem :=
  [⟨"s9", 0, 0, "core", false, [], false⟩,
   ⟨"s1", 0, 30, "core", false, [], false⟩,
   ⟨"s8", 10, 0, "core", false, [], false⟩,
   ⟨"s2", 10, 30, "core", false, [], false⟩]

def lanesC6 : List WarpLane :=
  [⟨"s9-s1", "s9", "s1", 900, 180, false⟩,
   ⟨"s8-s2", "s8", "s2", 900, 180, false⟩]

def stC6 : GraphState := ⟨lanesC6, connFromLanes lanesC6⟩

/- Two far-apart connected pairs: every system is vulnerable with degree 1,
and every candidate redundant lane exceeds the 0.4*radius cap. -/
def cfgC7 : GalaxyConfig := ⟨30, 4, 0, [], ⟨1, 3, 1, 1/2, false⟩⟩

def sysC7 : List StarSystem :=
  [⟨"a", 0, 0, "core", false, [], false⟩,
   ⟨"b", 3, 0, "core", false, [], false⟩,
   ⟨"c", 20, 0, "core", false, [], false⟩,
   ⟨"d", 23, 0, "core", false, [], false⟩]

def lanesC7 : List WarpLane :=
  [⟨"a-b", "a", "b", 9, 2, false⟩,
   ⟨"c-d", "c", "d", 9, 2, false⟩]

def stC7 : GraphState := ⟨lanesC7, connFromLanes lanesC7⟩

/- Two close sites for the neighbor-symmetry witness. -/
def cfgW8 : GalaxyConfig := ⟨100, 2, 0, [], ⟨1, 3, 50, 1/2, true⟩⟩

def sitesW8 : List VoronoiSite :=
  [⟨0, 0, [], "", false⟩, ⟨1, 0, [], "", false⟩]

/- ---------------------------------------------------------------- -/
/- Shared concrete-evaluation lemmas                                 -/
/- ---------------------------------------------------------------- -/

theorem stage1T_ids : (stage1SystemsLanes cfgT rngT).1.map StarSystem.id =
    ["system-1", "system-2"] := by with_unfolding_all rfl

theorem galaxyV_ids : (generateGalaxy cfgV rngV).systems.map StarSystem.id =
    idsV := by with_unfolding_all rfl

theorem galaxyV_lanes : (generateGalaxy cfgV rngV).warpLanes = lanesV := by
  with_unfolding_all rfl

theorem galaxyV_len : (generateGalaxy cfgV rngV).systems.length = 4 := by
  have h := congrArg List.length galaxyV_ids
  rwa [List.length_map] at h

theorem cvnW8_nb0 : ((computeVoronoiNeighbors cfgW8 sitesW8).getD 0
    dummySite).neighbors = [1] := by with_unfolding_all rfl

/- In the concrete lane list `lanesV`, every lane joins indices on the same
side of the 0/1 versus 2/3 split. -/
theorem lanesV_edge_dec : ∀ a, a < 4 → ∀ b, b < 4 →
    (∃ l ∈ lanesV,
      (l.fromId = idsV.getD a "" ∧ l.toId = idsV.getD b "") ∨
      (l.fromId = idsV.getD b "" ∧ l.toId = idsV.getD a "")) →
    (decide (a < 2) = decide (b < 2)) := by decide

theorem stage1_of_not_voronoi (cfg : GalaxyConfig) (rng : Rng)
    (hvor : cfg.connectivity.useVoronoiConnectivity = false) :
    stage1SystemsLanes cfg rng =
      ((generateStarSystems cfg rng).1,
       (generateWarpLanes cfg (generateStarSystems cfg rng).1
         (generateStarSystems cfg rng).2).1.warpLanes,
       (generateWarpLanes cfg (generateStarSystems cfg rng).1
         (generateStarSystems cfg rng).2).2) := by
  unfold stage1SystemsLanes
  rw [hvor]
  rfl

/- ================================================================ -/
/- The frozen claims                                                 -/
/- ================================================================ -/

/-- C1 (amended): on the traditional (non-Voronoi) path, and whenever the
branch stage generates pairwise-distinct system ids, the returned galaxy's
lane graph connects every pair of systems.  The original claim - full
connectivity for every configuration with at least one system - fails on
the Voronoi path, which never invokes the Connectivity Guarantor; see the
counterexample. -/
theorem claim_C1 (cfg : GalaxyConfig) (rng : Rng)
    (hvor : cfg.connectivity.useVoronoiConnectivity = false)
    (hnd : ((stage1SystemsLanes cfg rng).1.map StarSystem.id).Nodup) :
    ∀ i j, i < (generateGalaxy cfg rng).systems.length →
      j < (generateGalaxy cfg rng).systems.length →
      ReachIdx (generateGalaxy cfg rng).systems
        (generateGalaxy cfg rng).warpLanes i j := by
  have hstage := stage1_of_not_voronoi cfg rng hvor
  have hnd' : (((generateStarSystems cfg rng).1).map StarSystem.id).Nodup := by
    rw [hstage] at hnd
    exact hnd
  have hlen : (generateGalaxy cfg rng).systems.length =
      (stage1SystemsLanes cfg rng).1.length := by
    rw [generateGalaxy_systems, List.length_map]
  intro i j hi hj
  rw [hlen] at hi hj
  obtain ⟨ext, hext⟩ := finalState_lanes_extend cfg rng
  rw [generateGalaxy_warpLanes, hext]
  refine reachIdx_of_ids_eq (generateGalaxy_systems_ids cfg rng).symm ?_
  rw [hstage] at hi hj ⊢
  refine reachIdx_mono ?_
  exact (generateWarpLanes_spec cfg (generateStarSystems cfg rng).1
    (generateStarSystems cfg rng).2 hnd').2 i j hi hj

/-- C1 witness: the amended theorem applies to the concrete two-system
traditional configuration. -/
theorem claim_C1_witness :
    cfgT.connectivity.useVoronoiConnectivity = false ∧
    ((stage1SystemsLanes cfgT rngT).1.map StarSystem.id).Nodup ∧
    ∀ i j, i < (generateGalaxy cfgT rngT).systems.length →
      j < (generateGalaxy cfgT rngT).systems.length →
      ReachIdx (generateGalaxy cfgT rngT).systems
        (generateGalaxy cfgT rngT).warpLanes i j :=
  ⟨rfl, by rw [stage1T_ids]; decide,
   claim_C1 cfgT rngT rfl (by rw [stage1T_ids]; decide)⟩

/-- C1 counterexample: a Voronoi configuration with `starSystemCount = 4`
whose returned galaxy leaves system 0 unreachable from system 2: the
Voronoi path never runs the Connectivity Guarantor. -/
theorem claim_C1_counterexample :
    cfgV.connectivity.useVoronoiConnectivity = true ∧
    (1 : Int) ≤ cfgV.starSystemCount ∧
    2 < (generateGalaxy cfgV rngV).systems.length ∧
    ¬ ReachIdx (generateGalaxy cfgV rngV).systems
      (generateGalaxy cfgV rngV).warpLanes 0 2 := by
  refine ⟨rfl, by decide, by rw [galaxyV_len]; omega, ?_⟩
  intro hr
  have hedge : ∀ a b, laneEdge (generateGalaxy cfgV rngV).systems
      (generateGalaxy cfgV rngV).warpLanes a b → ((a < 2) ↔ (b < 2)) := by
    rintro a b ⟨ha, hb, hlb⟩
    rw [galaxyV_len] at ha hb
    rw [galaxyV_lanes, idOf_eq_map_getD, idOf_eq_map_getD,
      galaxyV_ids] at hlb
    exact decide_eq_decide.1 (lanesV_edge_dec a ha b hb hlb)
  have hP : ∀ x, ReachIdx (generateGalaxy cfgV rngV).systems
      (generateGalaxy cfgV rngV).warpLanes 0 x → x < 2 := by
    intro x hx
    induction hx with
    | refl => omega
    | tail hsteps hstep ih => exact (hedge _ _ hstep).1 ih
  exact absurd (hP 2 hr) (by omega)

/-- C2: whenever the branch stage generates pairwise-distinct system ids,
the returned galaxy has no self-loop lane and no two lanes on the same
unordered endpoint pair, and creating a lane for an already-connected pair
is a silent no-op. -/
theorem claim_C2 (cfg : GalaxyConfig) (rng : Rng)
    (hnd : ((stage1SystemsLanes cfg rng).1.map StarSystem.id).Nodup) :
    NoSelf (generateGalaxy cfg rng).warpLanes ∧
    PairUnique (generateGalaxy cfg rng).warpLanes ∧
    ∀ (st : GraphState) (system1 system2 : StarSystem) (distance : ℚ),
      system2.id ∈ st.connections system1.id →
      createWarpLane system1 system2 distance st = st := by
  have h := finalState_wf cfg rng hnd
  rw [generateGalaxy_warpLanes]
  exact ⟨h.1.2.1, h.1.2.2,
    fun st system1 system2 distance hmem => createWarpLane_noop hmem⟩

/-- C2 witness at the concrete two-system traditional configuration. -/
theorem claim_C2_witness :
    ((stage1SystemsLanes cfgT rngT).1.map StarSystem.id).Nodup ∧
    (NoSelf (generateGalaxy cfgT rngT).warpLanes ∧
     PairUnique (generateGalaxy cfgT rngT).warpLanes ∧
     ∀ (st : GraphState) (system1 system2 : StarSystem) (distance : ℚ),
       system2.id ∈ st.connections system1.id →
       createWarpLane system1 system2 distance st = st) :=
  ⟨by rw [stage1T_ids]; decide,
   claim_C2 cfgT rngT (by rw [stage1T_ids]; decide)⟩

set_option maxRecDepth 8000 in
/-- C3: refuted as written - the Voronoi site validity check reads the
still-empty member vector, so the run of `generateGalaxy` accepts sites at
identical positions (squared distance 0, strictly below the minimum
separation 2.5); on the traditional path, cap exhaustion accepts an
invalid sample, here three systems at one point.  Both halves exhibit
accepted placements closer than the loop's minimum distance. -/
theorem claim_C3 :
    ((generateVoronoiSites [] 2 rngZero).1.map VoronoiSite.pos) =
      [(0, 0), (0, 0)] ∧
    distLt (dist2 (0, 0) (0, 0)) (5/2) = true ∧
    ((generateStarSystemsCore cfgC3 rngZero).1.1.map StarSystem.pos) =
      [(0, 0), (0, 0), (0, 0)] ∧
    (generateStarSystemsCore cfgC3 rngZero).1.2 = false := by
  refine ⟨?_, ?_, ?_, ?_⟩
  · with_unfolding_all rfl
  · with_unfolding_all rfl
  · with_unfolding_all rfl
  · with_unfolding_all rfl

/-- C5: refuted as written - in the call `generateGalaxy` makes (member
site list still empty), the validity test is vacuous, so the first draw of
every slot is accepted: the produced site count always equals the request
and no slot is ever dropped; the anomaly loop likewise accepts its final
draw instead of dropping the slot. -/
theorem claim_C5 :
    (∀ (numSites : Int) (rng : Rng),
      ((generateVoronoiSites [] numSites rng).1).length =
        numSites.toNat) ∧
    (∀ (cfg : GalaxyConfig) (systems : List StarSystem) (rng : Rng),
      (generateAnomalies cfg systems rng).1.length =
        cfg.anomalyCount.toNat) :=
  ⟨generateVoronoiSites_nil_length, generateAnomalies_length⟩

/-- C4 (amended): `generateStarSystems` is total and never fails; it
returns every fixed system in configuration order followed by
`max 0 (starSystemCount - #fixed)` generated systems, so an excess of
fixed systems silently yields more systems than requested rather than an
error. -/
theorem claim_C4 (cfg : GalaxyConfig) (rng : Rng) :
    ((generateStarSystems cfg rng).1.map StarSystem.id) =
      cfg.fixedSystems.map FixedSystem.id ++
      (List.range (cfg.starSystemCount -
        (cfg.fixedSystems.length : Int)).toNat).map
        (fun i => "system-" ++ toString (i + 1)) :=
  generateStarSystems_ids cfg rng

/-- C4 counterexample: two fixed systems with a requested total of one;
`generateGalaxy` returns a galaxy holding both - no error. -/
theorem claim_C4_counterexample :
    cfgBad.starSystemCount = 1 ∧ cfgBad.fixedSystems.length = 2 ∧
    (generateGalaxy cfgBad rngB).systems.map StarSystem.id =
      ["alpha", "beta"] := by
  refine ⟨rfl, rfl, ?_⟩
  with_unfolding_all rfl

/-- C6 (amended): the Connectivity Guarantor's candidate bridges are
processed in ascending order of `(distance, (i, j))` where `i, j` are the
endpoint *indices* in the systems vector - not the id pair; the
comparison `bridgeLE` is exactly that lexicographic order. -/
theorem claim_C6 (systems : List StarSystem) (st : GraphState) :
    List.Pairwise (fun a b => bridgeLE a b = true)
      ((bridgeCandidates systems (existingUF systems st)).mergeSort
        bridgeLE) ∧
    ∀ a b : ℚ × Nat × Nat, bridgeLE a b = true ↔
      (a.1 < b.1 ∨ (a.1 = b.1 ∧
        (a.2.1 < b.2.1 ∨ (a.2.1 = b.2.1 ∧ a.2.2 ≤ b.2.2)))) := by
  refine ⟨bridge_mergeSort_sorted _, ?_⟩
  intro a b
  unfold bridgeLE
  rw [Bool.or_eq_true, Bool.and_eq_true, Bool.or_eq_true, Bool.and_eq_true]
  simp only [decide_eq_true_eq]

set_option maxRecDepth 8000 in
/-- C6 counterexample: two equal-distance candidate bridges; the pass adds
the one with the smaller index pair, `("s9", "s8")`, even though the
competing pair `("s1", "s2")` is id-lexicographically smaller. -/
theorem claim_C6_counterexample :
    (ensureNetworkConnectivity sysC6 stC6).warpLanes =
      lanesC6 ++ [⟨"s9-s8", "s9", "s8", 100, 20, false⟩] ∧
    dist2 (sysC6.getD 0 dummySystem).pos (sysC6.getD 2 dummySystem).pos =
      dist2 (sysC6.getD 1 dummySystem).pos
        (sysC6.getD 3 dummySystem).pos ∧
    (sysC6.getD 1 dummySystem).id = "s1" ∧
    (sysC6.getD 0 dummySystem).id = "s9" ∧
    ("s1" : String).toList < ("s9" : String).toList := by
  refine ⟨?_, ?_, rfl, rfl, ?_⟩
  · with_unfolding_all rfl
  · with_unfolding_all rfl
  · decide

/-- C7 (amended): the Resilience Augmenter appends at most
`min(systemCount/4, 40)` lanes, each strictly shorter than 40% of the
galaxy radius; each vulnerable system receives *at most* 2 new lanes when
its degree is 1 and at most 1 otherwise (possibly zero - the per-system
counts are upper bounds, not guarantees; see the counterexample). -/
theorem claim_C7 (cfg : GalaxyConfig) (systems : List StarSystem)
    (st : GraphState) :
    (∃ ext, (addRedundantConnections cfg systems st).warpLanes =
        st.warpLanes ++ ext ∧
      ext.length ≤ min (systems.length / 4) 40 ∧
      ∀ l ∈ ext, distLt l.distance (cfg.radius * (2/5)) = true) ∧
    ∀ (maxR : Nat) (acc : GraphState × Nat) (vIdx : Nat),
      ∃ ext, (redundantVulnStep cfg systems maxR acc vIdx).1.warpLanes =
          acc.1.warpLanes ++ ext ∧
        ext.length ≤
          (if (acc.1.connections
              (systems.getD vIdx dummySystem).id).length = 1
           then 2 else 1) := by
  refine ⟨addRedundantConnections_bound cfg systems st, ?_⟩
  intro maxR acc vIdx
  obtain ⟨ext, he, -, -, -, hl⟩ :=
    redundantVulnStep_spec cfg systems maxR acc vIdx
  exact ⟨ext, he, hl⟩

/-- C7 counterexample: a degree-1 vulnerable system (index 0) for which
the Resilience Augmenter adds no lane at all - every candidate exceeds the
0.4 * radius cap - refuting "receives 2 new lanes if its degree is 1". -/
theorem claim_C7_counterexample :
    0 ∈ vulnerableIdxs cfgC7 sysC7 stC7 ∧
    (stC7.connections (sysC7.getD 0 dummySystem).id).length = 1 ∧
    (addRedundantConnections cfgC7 sysC7 stC7).warpLanes =
      stC7.warpLanes := by
  refine ⟨?_, ?_, ?_⟩
  · have h : vulnerableIdxs cfgC7 sysC7 stC7 = [0, 1, 2, 3] := by
      with_unfolding_all rfl
    rw [h]
    decide
  · with_unfolding_all rfl
  · with_unfolding_all rfl

/-- C8: after `computeVoronoiNeighbors`, the neighbor relation is
symmetric: a recorded neighbor index is in range and its own list holds
the originating site. -/
theorem claim_C8 (cfg : GalaxyConfig) (sitesIn : List VoronoiSite)
    (i j : Nat)
    (hj : j ∈ ((computeVoronoiNeighbors cfg sitesIn).getD i
      dummySite).neighbors) :
    j < (computeVoronoiNeighbors cfg sitesIn).length ∧
    i ∈ ((computeVoronoiNeighbors cfg sitesIn).getD j
      dummySite).neighbors :=
  computeVoronoiNeighbors_symm cfg sitesIn i j hj

/-- C8 witness: two concrete close sites that select each other. -/
theorem claim_C8_witness :
    1 ∈ ((computeVoronoiNeighbors cfgW8 sitesW8).getD 0
      dummySite).neighbors ∧
    (1 < (computeVoronoiNeighbors cfgW8 sitesW8).length ∧
     0 ∈ ((computeVoronoiNeighbors cfgW8 sitesW8).getD 1
       dummySite).neighbors) :=
  ⟨by rw [cvnW8_nb0]; decide,
   claim_C8 cfgW8 sitesW8 0 1 (by rw [cvnW8_nb0]; decide)⟩

/-- C9: `createWarpLane` either leaves the state unchanged (already
connected) or appends exactly the lane whose id is `from ++ "-" ++ to`,
whose stored distance is the given one, whose travel time is
`ceil(distance / 5)`, and whose discovered flag is true iff both endpoint
systems are explored at creation time. -/
theorem claim_C9 (system1 system2 : StarSystem) (distance : ℚ)
    (st : GraphState) :
    createWarpLane system1 system2 distance st = st ∨
    ((createWarpLane system1 system2 distance st).warpLanes =
       st.warpLanes ++ [madeLane system1 system2 distance] ∧
     (madeLane system1 system2 distance).id =
       (madeLane system1 system2 distance).fromId ++ "-" ++
       (madeLane system1 system2 distance).toId ∧
     (madeLane system1 system2 distance).fromId = system1.id ∧
     (madeLane system1 system2 distance).toId = system2.id ∧
     (madeLane system1 system2 distance).distance = distance ∧
     (madeLane system1 system2 distance).travelTime =
       ⌈distance / 5⌉ ∧
     ((madeLane system1 system2 distance).discovered = true ↔
       (system1.explored = true ∧ system2.explored = true))) := by
  by_cases h : system2.id ∈ st.connections system1.id
  · exact Or.inl (createWarpLane_noop h)
  · refine Or.inr ⟨?_, rfl, rfl, rfl, rfl, rfl, ?_⟩
    · rw [createWarpLane_add h]
    · show (system1.explored && system2.explored) = true ↔ _
      rw [Bool.and_eq_true]

/-- C10: whenever the branch stage generates pairwise-distinct system
ids, every returned system's connections list holds exactly the ids
joined to it by some returned warp lane. -/
theorem claim_C10 (cfg : GalaxyConfig) (rng : Rng)
    (hnd : ((stage1SystemsLanes cfg rng).1.map StarSystem.id).Nodup) :
    ∀ s ∈ (generateGalaxy cfg rng).systems, ∀ b : String,
      b ∈ s.connections ↔
      laneBetween (generateGalaxy cfg rng).warpLanes s.id b := by
  have h := (finalState_wf cfg rng hnd).1.1
  intro s hs b
  rw [generateGalaxy_warpLanes]
  rw [generateGalaxy_systems] at hs
  obtain ⟨t, ht, rfl⟩ := List.mem_map.1 hs
  exact h t.id b

/-- C10 witness at the concrete two-system traditional configuration. -/
theorem claim_C10_witness :
    ((stage1SystemsLanes cfgT rngT).1.map StarSystem.id).Nodup ∧
    ∀ s ∈ (generateGalaxy cfgT rngT).systems, ∀ b : String,
      b ∈ s.connections ↔
      laneBetween (generateGalaxy cfgT rngT).warpLanes s.id b :=
  ⟨by rw [stage1T_ids]; decide,
   claim_C10 cfgT rngT (by rw [stage1T_ids]; decide)⟩

end Space4x
